import Mathlib

/-!
Verification development for the swagger/OpenAPI documentation generator
(`src/index.ts`, `src/generators/swagger.generator.ts`,
`src/helpers/type.helpers.ts`).

The schema data model is a shallow embedding of the untyped JSON property
bags the source dispatches on: a schema node is a record of optional
fields (`$ref`, `allOf`, `oneOf`, `anyOf`, `type`, `enum`, `items`,
`properties`, `required`, `format`, `description`, `title`), and the
registry (`components.schemas`) is an association list from names to
nodes.  JavaScript truthiness of each field is modelled explicitly
(a present string is truthy iff nonempty; present arrays and objects are
always truthy).  The recursive resolver is embedded with explicit fuel;
a measure `msize` is proved to bound the recursion depth, which makes the
JavaScript function's termination a theorem rather than an assumption.
-/

set_option maxRecDepth 4000

/-- The value of a JSON `type` field: either a single string or an array
of strings (`typeDef.type` is dispatched on `Array.isArray`). -/
inductive JType : Type where
  | single (s : String)
  | multi (ts : List String)
deriving DecidableEq, Repr

/-- A schema node: the record of the optional fields that the generator
reads from the duck-typed JSON schema objects.  `ref` is the `$ref`
field. -/
inductive Schema : Type where
  | mk (ref : Option String)
       (allOf oneOf anyOf : Option (List Schema))
       (type : Option JType)
       (enum : Option (List String))
       (items : Option Schema)
       (properties : Option (List (String × Schema)))
       (required : Option (List String))
       (format description title : Option String) : Schema

def Schema.ref : Schema → Option String
  | .mk r _ _ _ _ _ _ _ _ _ _ _ => r

def Schema.allOf : Schema → Option (List Schema)
  | .mk _ a _ _ _ _ _ _ _ _ _ _ => a

def Schema.oneOf : Schema → Option (List Schema)
  | .mk _ _ o _ _ _ _ _ _ _ _ _ => o

def Schema.anyOf : Schema → Option (List Schema)
  | .mk _ _ _ a _ _ _ _ _ _ _ _ => a

def Schema.type : Schema → Option JType
  | .mk _ _ _ _ t _ _ _ _ _ _ _ => t

def Schema.enum : Schema → Option (List String)
  | .mk _ _ _ _ _ e _ _ _ _ _ _ => e

def Schema.items : Schema → Option Schema
  | .mk _ _ _ _ _ _ i _ _ _ _ _ => i

def Schema.properties : Schema → Option (List (String × Schema))
  | .mk _ _ _ _ _ _ _ p _ _ _ _ => p

def Schema.required : Schema → Option (List String)
  | .mk _ _ _ _ _ _ _ _ r _ _ _ => r

def Schema.format : Schema → Option String
  | .mk _ _ _ _ _ _ _ _ _ f _ _ => f

def Schema.description : Schema → Option String
  | .mk _ _ _ _ _ _ _ _ _ _ d _ => d

def Schema.title : Schema → Option String
  | .mk _ _ _ _ _ _ _ _ _ _ _ t => t

/-- The empty schema object `{}` (used by the source as `param.schema || {}`). -/
def emptySchema : Schema :=
  .mk none none none none none none none none none none none none

/-- A schema node that consists of a single `$ref` field. -/
def refSchema (r : String) : Schema :=
  .mk (some r) none none none none none none none none none none none

/-- The registry `components.schemas`: an association list name ↦ node
(JavaScript objects have unique keys; lookup takes the first match). -/
abbrev Registry := List (String × Schema)

/-- `allSchemas[name]`: key lookup in the registry object. -/
def lookupSchema (reg : Registry) (k : String) : Option Schema :=
  (reg.find? (fun p => p.1 == k)).map (·.2)

/-- JavaScript string-truthiness of the `$ref` field: present and nonempty. -/
def truthyRef (t : Schema) : Bool :=
  match t.ref with
  | some r => r != ""
  | none => false

/-- JavaScript truthiness of a `type` field value: a string is truthy iff
nonempty, an array is always truthy. -/
def truthyType : Option JType → Bool
  | some (.single s) => s != ""
  | some (.multi _) => true
  | none => false

/-- JavaScript truthiness of an optional string field (e.g. `operationId`,
`description`): present and nonempty. -/
def truthyStr : Option String → Bool
  | some s => s != ""
  | none => false

/-- `str.split(sep)` for a single-character separator (JavaScript
semantics: `"".split(c)` is `[""]`, separators at the ends produce empty
segments). -/
def splitOnChar (sep : Char) : List Char → List (List Char)
  | [] => [[]]
  | c :: rest =>
    match splitOnChar sep rest with
    | [] => [[]]
    | g :: gs => if c = sep then [] :: g :: gs else (c :: g) :: gs

/-- `operationId.split('_')`. -/
def jsSplit (s : String) (sep : Char) : List String :=
  (splitOnChar sep s.data).map String.mk

/-- `str.toLowerCase()` (ASCII, as produced by HTTP method names). -/
def jsToLower (s : String) : String :=
  String.mk (s.data.map Char.toLower)

/-- `str.split('/').pop()`: the last segment of a `$ref` path
(`jsSplit` never returns `[]`, matching the JavaScript behaviour). -/
def lastSegment (r : String) : String :=
  (jsSplit r '/').getLastD ""

/-- `{...typeDef, type: t}`: the spread copy of a node with its `type`
field replaced by a single string. -/
def setTypeSingle : Schema → String → Schema
  | .mk r al oo ao _ en it pr rq f d tt, s =>
    .mk r al oo ao (some (.single s)) en it pr rq f d tt

/-- The synthesized inline node the `allOf` branch recurses on:
`{type: 'object', properties: combinedProperties, required: typeDef.required}`. -/
def objectSchema (props : List (String × Schema)) (req : Option (List String)) : Schema :=
  .mk none none none none (some (.single "object")) none none (some props) req none none none

/-- One step of `Object.assign(combinedProperties, item.properties)`: set a
single key.  Keys of JavaScript objects are unique, so replacing the first
occurrence and keeping its position is the object-update semantics. -/
def assignOne (acc : List (String × Schema)) (kv : String × Schema) : List (String × Schema) :=
  match acc with
  | [] => [kv]
  | p :: rest => if p.1 == kv.1 then (p.1, kv.2) :: rest else p :: assignOne rest kv

/-- `Object.assign(acc, l)`: fold the entries of `l` into `acc`. -/
def jsAssign (acc l : List (String × Schema)) : List (String × Schema) :=
  l.foldl assignOne acc

/-- One member's contribution to `refTypes`: `$ref` members push their
last path segment (skipping empty ones, per `if (refTypeName)`). -/
def allOfRefStep (acc : List String) (i : Schema) : List String :=
  if truthyRef i then
    let n := lastSegment ((i.ref).getD "")
    if n != "" then acc ++ [n] else acc
  else acc

/-- `refTypes` accumulated by the `allOf` loop. -/
def allOfRefTypes (items : List Schema) : List String :=
  items.foldl allOfRefStep []

/-- One member's contribution to `combinedProperties`: inline members
(`item.type === 'object' && item.properties`, no truthy `$ref`) are
merged with `Object.assign`. -/
def allOfStep (acc : List (String × Schema)) (i : Schema) : List (String × Schema) :=
  if truthyRef i then acc
  else if i.type == some (.single "object") && (i.properties).isSome then
    jsAssign acc ((i.properties).getD [])
  else acc

/-- `combinedProperties` accumulated by the `allOf` loop. -/
def allOfCombined (items : List Schema) : List (String × Schema) :=
  items.foldl allOfStep []

/-! ### Recursion measure

`msize` bounds the recursion depth of `convertTypeToTs`: every recursive
call of the source function is on a node of strictly smaller `msize`
(including the synthesized `allOf` inline node and the `{...typeDef,
type: t}` spread copies), so `msize` fuel suffices. -/

mutual

/-- Recursion measure of a schema node. -/
def msize : Schema → Nat
  | .mk _ al oo ao ty _ it pr _ _ _ _ =>
    1 + msizeLO al + msizeLO oo + msizeLO ao + msizeTy ty + msizeO it + msizeP pr

/-- Measure of an optional member list (`allOf` / `oneOf` / `anyOf`). -/
def msizeLO : Option (List Schema) → Nat
  | none => 0
  | some l => 1 + msizeL l

/-- Measure of a member list. -/
def msizeL : List Schema → Nat
  | [] => 0
  | s :: r => 1 + msize s + msizeL r

/-- Measure of a `type` field: an array weighs more than any single string. -/
def msizeTy : Option JType → Nat
  | none => 0
  | some (.single _) => 1
  | some (.multi ts) => 3 + ts.length

/-- Measure of an optional `items` node. -/
def msizeO : Option Schema → Nat
  | none => 0
  | some s => 1 + msize s

/-- Measure of an optional `properties` map. -/
def msizeP : Option (List (String × Schema)) → Nat
  | none => 0
  | some l => 1 + msizePL l

/-- Measure of a property list. -/
def msizePL : List (String × Schema) → Nat
  | [] => 0
  | p :: r => 1 + msize p.2 + msizePL r

end

/-- `.filter(Boolean).join(' | ') || 'any'` applied to resolved member
expressions (the `oneOf`/`anyOf` union assembly). -/
def joinUnion (rs : List String) : String :=
  let j := String.intercalate " | " (rs.filter (· != ""))
  if j = "" then "any" else j

/-- `.join(' | ') || 'any'` (the non-null type-array union assembly:
no Boolean filter here). -/
def orAny (j : String) : String :=
  if j = "" then "any" else j

/-- `` `"${typeDef.enum.join('" | "')}"` ``: the double-quoted literal
union of enum values. -/
def quoteEnumDouble (es : List String) : String :=
  "\"" ++ String.intercalate "\" | \"" es ++ "\""

/-- `propSchema.description || propSchema.title` (first truthy wins). -/
def descOrTitle (v : Schema) : Option String :=
  if truthyStr v.description then v.description
  else if truthyStr v.title then v.title
  else none

/-- The JSDoc prefix of a property line in an inline object type. -/
def propJsDoc (v : Schema) : String :=
  match descOrTitle v with
  | some d => "    /** " ++ d ++ " */\n"
  | none => ""

mutual

/-- Fueled embedding of `convertTypeToTs(typeDef, schemaComponents)`
(`src/helpers/type.helpers.ts`, identical private copy in
`src/index.ts`).  `none` means the fuel ran out; `msize` fuel is proved
sufficient below.  The initial `if (!typeDef) return 'any'` guard only
fires for JavaScript `null`/`undefined` arguments, which the embedding's
call sites rule out through `Option`. -/
def convertF : Nat → Schema → Registry → Option String
  | 0, _, _ => none
  | fuel + 1, t, reg =>
    if truthyRef t then
      -- if (typeDef.$ref) return typeDef.$ref.split('/').pop() || 'any'
      let n := lastSegment ((t.ref).getD "")
      some (if n = "" then "any" else n)
    else if (t.allOf).isSome then
      let items := (t.allOf).getD []
      let refTypes := allOfRefTypes items
      let combined := allOfCombined items
      if !refTypes.isEmpty && !combined.isEmpty then
        (convertF fuel (objectSchema combined t.required) reg).map
          (fun inl => String.intercalate " & " refTypes ++ " & " ++ inl)
      else if !refTypes.isEmpty then
        some (String.intercalate " & " refTypes)
      else if !combined.isEmpty then
        convertF fuel (objectSchema combined t.required) reg
      else
        some "any"
    else if (t.oneOf).isSome then
      (convertMembers fuel ((t.oneOf).getD []) reg).map joinUnion
    else if (t.anyOf).isSome then
      (convertMembers fuel ((t.anyOf).getD []) reg).map joinUnion
    else
      match t.type with
      | some (.multi ts) =>
        if ts.contains "null" then
          let nonNull := ts.filter (· != "null")
          if nonNull.length = 1 then
            (convertF fuel (setTypeSingle t (nonNull.headD "")) reg).map (· ++ " | null")
          else
            (convertSingles fuel t nonNull reg).map
              (fun rs => String.intercalate " | " rs ++ " | null")
        else
          (convertSingles fuel t ts reg).map (fun rs => orAny (String.intercalate " | " rs))
      | some (.single s) =>
        if s = "string" then
          match t.enum with
          | some es => some (quoteEnumDouble es)
          | none => some "string"
        else if s = "integer" ∨ s = "number" then some "number"
        else if s = "boolean" then some "boolean"
        else if s = "array" then
          match t.items with
          | some it => (convertF fuel it reg).map (· ++ "[]")
          | none => some "any[]"
        else if s = "object" then
          match t.properties with
          | some ps =>
            (convertProps fuel ((t.required).getD []) ps reg).map
              (fun lines => "\x7b\n" ++ String.intercalate "\n" lines ++ "\n  \x7d")
          | none => some "Record<string, any>"
        else if s = "null" then some "null"
        else some "any"
      | none => some "any"

/-- The member dispatch of a `oneOf`/`anyOf` union: `$ref` members yield
their last path segment (no `|| 'any'` here), members with a truthy
`type` recurse, anything else yields `any`. -/
def convertMembers : Nat → List Schema → Registry → Option (List String)
  | 0, _, _ => none
  | _ + 1, [], _ => some []
  | fuel + 1, i :: rest, reg =>
    let hd :=
      if truthyRef i then some (lastSegment ((i.ref).getD ""))
      else if truthyType i.type then convertF fuel i reg
      else some "any"
    match hd, convertMembers fuel rest reg with
    | some h, some hs => some (h :: hs)
    | _, _ => none

/-- `typeDef.type.map(t => convertTypeToTs({...typeDef, type: t}, ...))`:
resolving each entry of a type array against the spread copy. -/
def convertSingles : Nat → Schema → List String → Registry → Option (List String)
  | 0, _, _, _ => none
  | _ + 1, _, [], _ => some []
  | fuel + 1, t, s :: rest, reg =>
    match convertF fuel (setTypeSingle t s) reg, convertSingles fuel t rest reg with
    | some h, some hs => some (h :: hs)
    | _, _ => none

/-- The property lines of an inline object type: optional `?` marker from
the node's own `required` list, JSDoc from `description || title`. -/
def convertProps : Nat → List String → List (String × Schema) → Registry → Option (List String)
  | 0, _, _, _ => none
  | _ + 1, _, [], _ => some []
  | fuel + 1, req, p :: rest, reg =>
    match convertF fuel p.2 reg, convertProps fuel req rest reg with
    | some ty, some ls =>
      let optional := if req.contains p.1 then "" else "?"
      some ((propJsDoc p.2 ++ "    " ++ p.1 ++ optional ++ ": " ++ ty ++ ";") :: ls)
    | _, _ => none

end

/-- The total resolver: `convertTypeToTs` run with sufficient fuel
(`msize` fuel is proved sufficient below, so the `getD` default is never
taken). -/
def convertTypeToTs (t : Schema) (reg : Registry) : String :=
  (convertF (msize t) t reg).getD "any"

/-- `references.add(name)`: insertion-ordered set insert. -/
def addUnique (acc : List String) (n : String) : List String :=
  if acc.contains n then acc else acc ++ [n]

/-- `nestedRefs.forEach(ref => references.add(ref))`: merge a recursive
result set into the accumulator. -/
def mergeUnique (acc l : List String) : List String :=
  l.foldl addUnique acc

mutual

/-- Fueled embedding of `findSchemaReferences(schema, allSchemas)`
(`swagger.generator.ts`): the insertion-ordered set of registered schema
names referenced by a node, walking `$ref`, `properties`, `items`, and
`allOf`/`oneOf`/`anyOf` members.  `msize` fuel is proved sufficient
(`fsr_stable`). -/
def fsrF : Nat → Schema → Registry → List String
  | 0, _, _ => []
  | fuel + 1, s, reg =>
    let acc : List String :=
      if truthyRef s then
        let n := lastSegment ((s.ref).getD "")
        if n != "" && (lookupSchema reg n).isSome then [n] else []
      else []
    let acc := match s.properties with
      | some ps => fsrPropsF fuel ps reg acc
      | none => acc
    let acc := match s.items with
      | some itn => mergeUnique acc (fsrF fuel itn reg)
      | none => acc
    let acc := match s.allOf with
      | some l => fsrListF fuel l reg acc
      | none => acc
    let acc := match s.oneOf with
      | some l => fsrListF fuel l reg acc
      | none => acc
    match s.anyOf with
    | some l => fsrListF fuel l reg acc
    | none => acc

/-- Fold of `findSchemaReferences` over member lists. -/
def fsrListF : Nat → List Schema → Registry → List String → List String
  | 0, _, _, acc => acc
  | _ + 1, [], _, acc => acc
  | fuel + 1, i :: rest, reg, acc =>
    fsrListF fuel rest reg (mergeUnique acc (fsrF fuel i reg))

/-- Fold of `findSchemaReferences` over property values. -/
def fsrPropsF : Nat → List (String × Schema) → Registry → List String → List String
  | 0, _, _, acc => acc
  | _ + 1, [], _, acc => acc
  | fuel + 1, p :: rest, reg, acc =>
    fsrPropsF fuel rest reg (mergeUnique acc (fsrF fuel p.2 reg))

end

/-- `findSchemaReferences` run with sufficient fuel. -/
def findSchemaReferences (s : Schema) (reg : Registry) : List String :=
  fsrF (msize s) s reg

/-- One reference examined inside a pass:
`if (!result.has(refName) && allSchemas[refName]) { result.add(refName);
changed = true; }`. -/
def refAddStep (reg : Registry) (st : List String × Bool) (refName : String) :
    List String × Bool :=
  if !st.1.contains refName && (lookupSchema reg refName).isSome then
    (st.1 ++ [refName], true)
  else st

/-- One snapshot name examined inside a pass: fold the references of its
registered schema (if any) into the state. -/
def refNameStep (reg : Registry) (st : List String × Bool) (typeName : String) :
    List String × Bool :=
  match lookupSchema reg typeName with
  | some schema => (findSchemaReferences schema reg).foldl (refAddStep reg) st
  | none => st

/-- The body of one `while (changed)` pass of `findAllReferencedSchemas`:
iterate the snapshot `[...result]`, appending unseen registered reference
names and raising the `changed` flag. -/
def refPass (reg : Registry) (snapshot : List String) (st : List String × Bool) :
    List String × Bool :=
  snapshot.foldl (refNameStep reg) st

/-- The `while (changed)` loop, with enough fuel to reach the fixpoint
(each changed pass adds at least one registry key, so `reg.length + 1`
passes suffice; this is proved below). -/
def refLoop (reg : Registry) : Nat → List String → List String
  | 0, res => res
  | fuel + 1, res =>
    let st := refPass reg res (res, false)
    if st.2 then refLoop reg fuel st.1 else st.1

/-- Embedding of `findAllReferencedSchemas(initialSchemas, allSchemas)`:
the transitive reference closure of the initial name set.
`new Set([...initialSchemas])` deduplicates the seeds in insertion
order. -/
def findAllReferencedSchemas (initialSchemas : List String) (allSchemas : Registry) :
    List String :=
  refLoop allSchemas (allSchemas.length + 1) (initialSchemas.foldl addUnique [])

mutual

/-- Embedding of `schemaContainsRef(schema, targetSchemaName, allSchemas)`:
whether a node embeds a `$ref` whose last segment equals the target name,
anywhere under `$ref`, `properties`, `items`, or `allOf`/`oneOf`/`anyOf`
members.  (The registry argument is passed through but never consulted,
as in the source.) -/
def schemaContainsRef : Schema → String → Registry → Bool
  | s@(.mk _ al oo ao _ _ it pr _ _ _ _), target, reg =>
    if truthyRef s && (lastSegment ((s.ref).getD "") == target) then true
    else
      let hit := match pr with
        | some ps => scrProps ps target reg
        | none => false
      let hit := hit || (match it with
        | some itn => schemaContainsRef itn target reg
        | none => false)
      let hit := hit || (match al with
        | some l => scrList l target reg
        | none => false)
      let hit := hit || (match oo with
        | some l => scrList l target reg
        | none => false)
      hit || (match ao with
        | some l => scrList l target reg
        | none => false)
  termination_by s target reg => msize s
  decreasing_by
    all_goals simp [msize, msizeLO, msizeL, msizeO, msizeP, msizePL] <;> omega

/-- `schemaContainsRef` over member lists (short-circuit `for`/`return`). -/
def scrList : List Schema → String → Registry → Bool
  | [], _, _ => false
  | i :: rest, target, reg =>
    schemaContainsRef i target reg || scrList rest target reg
  termination_by l target reg => msizeL l
  decreasing_by
    all_goals simp [msizeL] <;> omega

/-- `schemaContainsRef` over property values. -/
def scrProps : List (String × Schema) → String → Registry → Bool
  | [], _, _ => false
  | p :: rest, target, reg =>
    schemaContainsRef p.2 target reg || scrProps rest target reg
  termination_by ps target reg => msizePL ps
  decreasing_by
    all_goals simp [msizePL] <;> omega

end

/-! ### Document and endpoint data model -/

/-- Generic key lookup in a JavaScript object modelled as an association
list. -/
def lookupAssoc {α : Type} (l : List (String × α)) (k : String) : Option α :=
  (l.find? (fun p => p.1 == k)).map (·.2)

/-- A `content[mediaType]` entry: `{schema, example?}` (only `schema` is
read by the generators). -/
structure ContentInfo : Type where
  schema : Option Schema

/-- A `responses[statusCode]` entry. -/
structure ResponseInfo : Type where
  content : Option (List (String × ContentInfo))

/-- A `requestBody` value (its `content` is optional-chained at every
use site). -/
structure RequestBody : Type where
  content : Option (List (String × ContentInfo))

/-- The `Parameter` interface of the source; the `in` field is named
`inLoc` (`in` is reserved in Lean). -/
structure Parameter : Type where
  name : String
  inLoc : String
  required : Option Bool
  schema : Option Schema

/-- One `paths[path][method]` record (the fields the generators read). -/
structure EndpointInfo : Type where
  tags : Option (List String)
  operationId : Option String
  parameters : Option (List Parameter)
  requestBody : Option RequestBody
  responses : Option (List (String × ResponseInfo))

/-- The input document: `info` is not read by the hook generators'
grouping/emission logic modelled here; `paths` and `components.schemas`
are runtime-optional (the TypeScript type marks `paths` required but
nothing checks it at runtime). -/
structure Components : Type where
  schemas : Option Registry

structure SwaggerDoc : Type where
  paths : Option (List (String × List (String × EndpointInfo)))
  components : Option Components

/-- One endpoint as collected by the tag-grouping loop. -/
structure TaggedEndpoint : Type where
  path : String
  method : String
  endpointInfo : EndpointInfo

/-- A per-tag artifact: the `{hooks, types}` pair. -/
structure Artifact : Type where
  hooks : String
  types : String

/-! ### Naming helpers -/

/-- `\w` of JavaScript regexes. -/
def isWordChar (c : Char) : Bool :=
  c.isAlphanum || c == '_'

/-- The per-character transform of
`str.replace(/(?:^\w|[A-Z]|\b\w)/g, cb)`: a single character matches iff
it is a word character at position 0, an uppercase letter, or a word
character following a non-word character; the callback maps the match at
offset 0 through `first` and all others through `toUpperCase`. -/
def caseMapChars (first : Char → Char) : Option Char → List Char → List Char
  | _, [] => []
  | none, c :: rest =>
    (if isWordChar c then first c else c) :: caseMapChars first (some c) rest
  | some p, c :: rest =>
    (if c.isUpper then c
     else if isWordChar c && !isWordChar p then c.toUpper
     else c) :: caseMapChars first (some c) rest

/-- `toPascalCase`: uppercase the match at offset 0, then strip
whitespace (`.replace(/\s+/g, '')`). -/
def toPascalCase (str : String) : String :=
  String.mk ((caseMapChars Char.toUpper none str.data).filter (fun c => !c.isWhitespace))

/-- `toCamelCase`: lowercase the match at offset 0, then strip
whitespace. -/
def toCamelCase (str : String) : String :=
  String.mk ((caseMapChars Char.toLower none str.data).filter (fun c => !c.isWhitespace))

/-- `generateOperationId(path, method)`:
`` `${method.toLowerCase()}_${path.replace(/[\/{}]/g, '_')}` ``. -/
def generateOperationId (path method : String) : String :=
  jsToLower method ++ "_" ++
    String.mk (path.data.map (fun c => if c = '/' || c = '\x7b' || c = '\x7d' then '_' else c))

/-- First index at which `needle` occurs as a contiguous substring. -/
def firstIndexOfSub (hay needle : List Char) : Option Nat :=
  (List.range (hay.length + 1)).find? (fun i => needle.isPrefixOf (hay.drop i))

/-- `hay.includes(needle)`. -/
def substrOccurs (needle hay : String) : Bool :=
  (firstIndexOfSub hay.data needle.data).isSome

/-- `hay.replace(needle, repl)` with a string pattern: replaces the
first occurrence only. -/
def replaceFirst (hay needle repl : String) : String :=
  match firstIndexOfSub hay.data needle.data with
  | some i => String.mk (hay.data.take i ++ repl.data ++ hay.data.drop (i + needle.length))
  | none => hay

/-- The operation identifier of an endpoint:
`endpointInfo.operationId || generateOperationId(path, method)`. -/
def operationIdOf (path method : String) (e : EndpointInfo) : String :=
  if truthyStr e.operationId then (e.operationId).getD ""
  else generateOperationId path method

/-- The trailing-segment binding-name heuristic shared by
`generateReactQueryHook` and `generateParamInterface`: when the
operation identifier contains `_`, only the segment after the last `_`
is kept (`parts[parts.length - 1]`). -/
def bindingBase (operationId : String) : String :=
  if substrOccurs "_" operationId then
    let parts := jsSplit operationId '_'
    if parts.length ≥ 2 then toPascalCase (parts.getLastD "")
    else toPascalCase operationId
  else toPascalCase operationId

/-- Embedding of `generateParamInterface(path, method, endpointInfo,
schemas)`: the parameter interface text, or `''` when the endpoint has
no path/query parameters. -/
def generateParamInterface (path method : String) (e : EndpointInfo) (schemas : Registry) :
    String :=
  match e.parameters with
  | none => ""
  | some params =>
    if params.isEmpty then ""
    else
      let pathParams := params.filter (fun p => p.inLoc == "path")
      let queryParams := params.filter (fun p => p.inLoc == "query")
      if pathParams.isEmpty && queryParams.isEmpty then ""
      else
        let operationId := operationIdOf path method e
        let interfaceName := bindingBase operationId ++ "Params"
        let paramLine := fun (p : Parameter) =>
          "  " ++ toCamelCase p.name ++ (if p.required == some true then "" else "?") ++
            ": " ++ convertTypeToTs ((p.schema).getD emptySchema) schemas ++ ";\n"
        "export interface " ++ interfaceName ++ " \x7b\n" ++
          String.join (pathParams.map paramLine) ++
          String.join (queryParams.map paramLine) ++ "\x7d\n"

/-- `responses[code].content?.['application/json']?.schema`. -/
def jsonSchemaOf (resps : List (String × ResponseInfo)) (code : String) : Option Schema :=
  match lookupAssoc resps code with
  | some ri =>
    match ri.content with
    | some content =>
      match lookupAssoc content "application/json" with
      | some ci => ci.schema
      | none => none
    | none => none
  | none => none

/-- The fixed preference order of success status codes. -/
def successCodes : List String := ["200", "201", "204", "202", "203", "205"]

/-- The `for (const code of successCodes)` scan: the schema of the first
listed code that carries an `application/json` content schema (codes
present without such a schema are skipped, the loop continues). -/
def responseSchemaLoop (resps : List (String × ResponseInfo)) : List String → Option Schema
  | [] => none
  | c :: cs =>
    match jsonSchemaOf resps c with
    | some sch => some sch
    | none => responseSchemaLoop resps cs

/-- `requestBody.content?.['application/json']?.schema`. -/
def bodySchemaOf (rb : RequestBody) : Option Schema :=
  match rb.content with
  | some content =>
    match lookupAssoc content "application/json" with
    | some ci => ci.schema
    | none => none
  | none => none

/-- `path.replace(/{(\w+)}/g, (_, p) => `${params.${toCamelCase(p)}}`)`:
interpolate path parameters.  Fuel-driven scan; `length + 1` fuel always
suffices because each step consumes at least one character. -/
def formatPathChars : Nat → List Char → List Char
  | 0, cs => cs
  | _ + 1, [] => []
  | fuel + 1, c :: rest =>
    if c = '\x7b' then
      let w := rest.takeWhile isWordChar
      match rest.dropWhile isWordChar with
      | '\x7d' :: tail =>
        if w.isEmpty then c :: formatPathChars fuel rest
        else "$\x7bparams.".data ++ (toCamelCase (String.mk w)).data ++
          '\x7d' :: formatPathChars fuel tail
      | _ => c :: formatPathChars fuel rest
    else c :: formatPathChars fuel rest

def formatPath (path : String) : String :=
  String.mk (formatPathChars (path.length + 1) path.data)

/-- The template context record assembled by `generateReactQueryHook`
(`hookData` in the source); the actual text rendering is delegated to
the external Handlebars engine (§6 collaborator). -/
structure HookData : Type where
  hookName : String
  operationId : String
  method : String
  responseType : String
  requestBodyType : String
  hasParams : Bool
  hasPathParams : Bool
  paramInterfaceName : String
  formattedPath : String
  isGetRequest : Bool

/-- The pure computation of `generateReactQueryHook(path, method,
endpointInfo, schemas)` up to the final Handlebars rendering. -/
def reactQueryHookData (path method : String) (e : EndpointInfo) (schemas : Registry) :
    HookData :=
  let operationId := operationIdOf path method e
  let hookName := "use" ++ bindingBase operationId
  let pathParams := ((e.parameters).getD []).filter (fun p => p.inLoc == "path")
  let queryParams := ((e.parameters).getD []).filter (fun p => p.inLoc == "query")
  let responseType :=
    match e.responses with
    | some resps =>
      match responseSchemaLoop resps successCodes with
      | some sch => convertTypeToTs sch schemas
      | none => "any"
    | none => "any"
  let requestBodyType :=
    if jsToLower method != "get" && jsToLower method != "delete" then
      match e.requestBody with
      | some rb =>
        match bodySchemaOf rb with
        | some sch => convertTypeToTs sch schemas
        | none => "any"
      | none => "any"
    else "any"
  { hookName := hookName
    operationId := operationId
    method := jsToLower method
    responseType := responseType
    requestBodyType := requestBodyType
    hasParams := !pathParams.isEmpty || !queryParams.isEmpty
    hasPathParams := !pathParams.isEmpty
    paramInterfaceName := replaceFirst hookName "use" "" ++ "Params"
    formattedPath := formatPath path
    isGetRequest := jsToLower method == "get" }

/-- `generateReactQueryHook`: the hook text is the external template
engine (`render`) applied to the computed context (the source reads and
compiles `individual-hook.hbs` here; template I/O is the §6 external
collaborator). -/
def generateReactQueryHook (render : HookData → String) (path method : String)
    (e : EndpointInfo) (schemas : Registry) : String :=
  render (reactQueryHookData path method e schemas)

/-- `propSchema.title || propSchema.description` (the JSDoc source used
by `generateSingleTypeDefinition` / `generateInlineObjectInterface` —
note the opposite precedence from `convertTypeToTs`'s property lines). -/
def titleOrDesc (v : Schema) : Option String :=
  if truthyStr v.title then v.title
  else if truthyStr v.description then v.description
  else none

/-- Embedding of `generateInlineObjectInterface(schema, tempName,
allSchemas)` (the `tempName` argument is unused in the source too). -/
def generateInlineObjectInterface (schema : Schema) (tempName : String)
    (allSchemas : Registry) : String :=
  match schema.properties with
  | none => "any"
  | some ps =>
    "\x7b\n" ++
      String.join (ps.map (fun p =>
        (match titleOrDesc p.2 with
         | some d => "    /** " ++ d ++ " */\n"
         | none => "") ++
        "    " ++ p.1 ++ (if ((schema.required).getD []).contains p.1 then "" else "?") ++
          ": " ++ convertTypeToTs p.2 allSchemas ++ ";\n")) ++ "  \x7d"

/-- Embedding of `generateSingleTypeDefinition(typeName, schema,
allSchemas)` (`type.helpers.ts`, identical method copy in
`src/index.ts`): the top-level type definition emitter; `enum` is
checked first here, before `oneOf`/`anyOf`, `allOf` and `object`. -/
def generateSingleTypeDefinition (typeName : String) (schema : Schema)
    (allSchemas : Registry) : String :=
  if (schema.enum).isSome then
    "export type " ++ typeName ++ " = " ++
      String.intercalate " | " (((schema.enum).getD []).map (fun v => "\x27" ++ v ++ "\x27")) ++
      ";\n"
  else if (schema.oneOf).isSome || (schema.anyOf).isSome then
    let members := if (schema.oneOf).isSome then (schema.oneOf).getD [] else (schema.anyOf).getD []
    let types := (members.map (fun item =>
      if truthyRef item then lastSegment ((item.ref).getD "")
      else if truthyType item.type then convertTypeToTs item allSchemas
      else "any")).filter (· != "")
    "export type " ++ typeName ++ " = " ++ String.intercalate " | " types ++ ";\n"
  else if (schema.allOf).isSome then
    let allParts := ((schema.allOf).getD []).foldl (fun acc part =>
      if truthyRef part then
        let n := lastSegment ((part.ref).getD "")
        if n != "" then acc ++ [n] else acc
      else if part.type == some (.single "object") && (part.properties).isSome then
        acc ++ [generateInlineObjectInterface part (typeName ++ "Inline") allSchemas]
      else acc) []
    "export type " ++ typeName ++ " = " ++ String.intercalate " & " allParts ++ ";\n"
  else if schema.type == some (.single "object") then
    "export interface " ++ typeName ++ " \x7b\n" ++
      (match schema.properties with
       | some ps =>
         String.join (ps.map (fun p =>
           (match titleOrDesc p.2 with
            | some d => "  /** " ++ d ++ " */\n"
            | none => "") ++
           "  " ++ p.1 ++ (if ((schema.required).getD []).contains p.1 then "" else "?") ++
             ": " ++ convertTypeToTs p.2 allSchemas ++ ";\n"))
       | none => "") ++ "\x7d\n"
  else
    "export type " ++ typeName ++ " = " ++ convertTypeToTs schema allSchemas ++ ";\n"

/-- Embedding of `isSchemaUsedInEndpoints(schemaName, endpoints,
allSchemas)`: whether any endpoint of the group references the schema in
a response content schema, a parameter schema, or a request-body content
schema. -/
def isSchemaUsedInEndpoints (schemaName : String) (endpoints : List TaggedEndpoint)
    (allSchemas : Registry) : Bool :=
  endpoints.any (fun te =>
    (match te.endpointInfo.responses with
     | some resps => resps.any (fun ri =>
         match ri.2.content with
         | some content => content.any (fun ci =>
             match ci.2.schema with
             | some sch => schemaContainsRef sch schemaName allSchemas
             | none => false)
         | none => false)
     | none => false) ||
    (match te.endpointInfo.parameters with
     | some params => params.any (fun p =>
         match p.schema with
         | some sch => schemaContainsRef sch schemaName allSchemas
         | none => false)
     | none => false) ||
    (match te.endpointInfo.requestBody with
     | some rb =>
       match rb.content with
       | some content => content.any (fun ci =>
           match ci.2.schema with
           | some sch => schemaContainsRef sch schemaName allSchemas
           | none => false)
       | none => false
     | none => false))

/-- The grouping key: `(endpointInfo.tags && endpointInfo.tags[0]) ?
endpointInfo.tags[0] : 'General'`. -/
def tagOf (e : EndpointInfo) : String :=
  match e.tags with
  | some (t :: _) => if t != "" then t else "General"
  | _ => "General"

/-- Append an endpoint to its tag's bucket, preserving first-seen tag
order (JavaScript object key insertion order). -/
def addToGroups (groups : List (String × List TaggedEndpoint)) (tag : String)
    (te : TaggedEndpoint) : List (String × List TaggedEndpoint) :=
  match groups with
  | [] => [(tag, [te])]
  | (t, l) :: rest =>
    if t == tag then (t, l ++ [te]) :: rest
    else (t, l) :: addToGroups rest tag te

/-- The endpoint grouping loop shared by `generateReactHooks` and
`generateHandlebarsResources`. -/
def groupEndpointsByTag (paths : List (String × List (String × EndpointInfo))) :
    List (String × List TaggedEndpoint) :=
  paths.foldl (fun groups pm =>
    pm.2.foldl (fun groups me =>
      addToGroups groups (tagOf me.2) ⟨pm.1, me.1, me.2⟩) groups) []

/-- The JavaScript `TypeError` thrown by `Object.entries(undefined)`
when `swaggerDoc.paths` is absent. -/
def typeErrorMsg : String := "TypeError: Cannot convert undefined or null to object"

/-- The `directlyUsedSchemas` set: registry entries (in registry order)
used by some endpoint of the group. -/
def directlyUsedSchemas (schemas : Registry) (endpoints : List TaggedEndpoint) :
    List String :=
  schemas.foldl (fun acc p =>
    if isSchemaUsedInEndpoints p.1 endpoints schemas then addUnique acc p.1 else acc) []

/-- The per-tag type definition text: one definition per closure name
with a registry entry, in closure order. -/
def typesForSchemas (schemas : Registry) (allNeededSchemas : List String)
    (start : String) : String :=
  allNeededSchemas.foldl (fun acc typeName =>
    match lookupSchema schemas typeName with
    | some schema => acc ++ generateSingleTypeDefinition typeName schema schemas ++ "\n"
    | none => acc) start

/-- The deduplicated parameter-interface list of a tag group
(`if (paramInterface && !allParamInterfaces.includes(paramInterface))`). -/
def paramInterfacesOf (schemas : Registry) (endpoints : List TaggedEndpoint) :
    List String :=
  endpoints.foldl (fun acc te =>
    let pi := generateParamInterface te.path te.method te.endpointInfo schemas
    if pi != "" && !acc.contains pi then acc ++ [pi] else acc) []

/-- Embedding of `generateHandlebarsResources(swaggerDoc)` with the
default `templatePaths = {}` (no custom hooks template, so the built-in
default rendering branch runs; the custom-template branch is the §6
external engine with this same branch as its declared fallback).
`render` is the external per-hook template engine.  `Object.entries(
swaggerDoc.paths)` throws a `TypeError` when `paths` is absent, which
the embedding returns as `Except.error`. -/
def generateHandlebarsResources (render : HookData → String) (swaggerDoc : SwaggerDoc) :
    Except String (List (String × Artifact)) :=
  let schemas := match swaggerDoc.components with
    | some c => (c.schemas).getD []
    | none => []
  match swaggerDoc.paths with
  | none => .error typeErrorMsg
  | some paths =>
    .ok ((groupEndpointsByTag paths).map (fun te =>
      let tag := te.1
      let endpoints := te.2
      let allNeededSchemas := findAllReferencedSchemas (directlyUsedSchemas schemas endpoints) schemas
      let typesContent := typesForSchemas schemas allNeededSchemas ""
      let hasImportTypes := allNeededSchemas.length > 0
      let allParamInterfaces := paramInterfacesOf schemas endpoints
      let allHooks := endpoints.map (fun ep =>
        generateReactQueryHook render ep.path ep.method ep.endpointInfo schemas)
      let hooksContent :=
        "// " ++ toPascalCase tag ++ " API Hooks\n"
        ++ "import \x7b useQuery, useMutation, useQueryClient \x7d from \x27react-query\x27;\n"
        ++ "import axios from \x27axios\x27;\n"
        ++ (if hasImportTypes then
              "import type \x7b " ++ String.intercalate ", " allNeededSchemas ++
                " \x7d from \x27./" ++ toCamelCase tag ++ ".types\x27;\n\n"
            else "\n")
        ++ String.join (allParamInterfaces.map (· ++ "\n"))
        ++ String.join (allHooks.map (· ++ "\n"))
      (tag, ⟨hooksContent, typesContent⟩)))

/-! ### `generateReactHooks`-specific string analysis -/

/-- `.replace(/\s+/g, '')`. -/
def stripWhitespace (s : String) : String :=
  String.mk (s.data.filter (fun c => !c.isWhitespace))

/-- `str.indexOf(char)` (as an `Option`; JavaScript returns `-1`). -/
def strIndexOf (s : String) (c : Char) : Option Nat :=
  s.data.findIdx? (· = c)

/-- `str.lastIndexOf(char)`. -/
def strLastIndexOf (s : String) (c : Char) : Option Nat :=
  ((s.data.reverse).findIdx? (· = c)).map (fun i => s.data.length - 1 - i)

/-- `str.substring(a, b)` (with `a ≤ b`, as at every use site). -/
def substrRange (s : String) (a b : Nat) : String :=
  String.mk ((s.data.drop a).take (b - a))

/-- Embedding of `extractTypeNamesFromType(typeStr, typeSet, allSchemas)`
(`src/index.ts`): walk a rendered type expression and collect the schema
names occurring in it.  Fuel-driven; every recursive call is on a
strictly shorter string, so `length + 1` fuel always suffices. -/
def extractTypeNamesFromType : Nat → String → List String → Registry → List String
  | 0, _, typeSet, _ => typeSet
  | fuel + 1, typeStr, typeSet, allSchemas =>
    if typeStr = "" then typeSet
    else
      let cleanType := stripWhitespace typeStr
      if substrOccurs "|" cleanType then
        (jsSplit cleanType '|').foldl
          (fun acc part => extractTypeNamesFromType fuel part.trim acc allSchemas) typeSet
      else if cleanType.endsWith "[]" then
        extractTypeNamesFromType fuel (String.mk cleanType.data.dropLast.dropLast) typeSet allSchemas
      else if cleanType.startsWith "Array<" then
        match strLastIndexOf cleanType '>' with
        | some endIndex =>
          if endIndex > 6 then
            extractTypeNamesFromType fuel (substrRange cleanType 6 endIndex) typeSet allSchemas
          else typeSet
        | none => typeSet
      else if substrOccurs "&" cleanType then
        (jsSplit cleanType '&').foldl
          (fun acc part => extractTypeNamesFromType fuel part.trim acc allSchemas) typeSet
      else if substrOccurs "<" cleanType && substrOccurs ">" cleanType then
        match strIndexOf cleanType '<' with
        | some bracketIndex =>
          let genericType := substrRange cleanType 0 bracketIndex
          let typeSet :=
            if (lookupSchema allSchemas genericType).isSome then addUnique typeSet genericType
            else typeSet
          match strLastIndexOf cleanType '>' with
          | some contentEnd =>
            if contentEnd > bracketIndex + 1 then
              extractTypeNamesFromType fuel (substrRange cleanType (bracketIndex + 1) contentEnd)
                typeSet allSchemas
            else typeSet
          | none => typeSet
        | none => typeSet
      else if (lookupSchema allSchemas typeStr.trim).isSome then addUnique typeSet typeStr.trim
      else if (lookupSchema allSchemas cleanType).isSome then addUnique typeSet cleanType
      else typeSet

/-- First match of `/export interface (\w+)/`: the captured interface
name. -/
def matchInterfaceName (interfaceCode : String) : Option String :=
  let cs := interfaceCode.data
  let lit := "export interface ".data
  (List.range (cs.length + 1)).findSome? (fun i =>
    if lit.isPrefixOf (cs.drop i) then
      let w := ((cs.drop i).drop lit.length).takeWhile isWordChar
      if w.isEmpty then none else some (String.mk w)
    else none)

/-- One attempted match of
`/[a-zA-Z_$][a-zA-Z0-9_$]*\??\s*:\s*[^;]+/` at the head of `cs`,
returning the match text and the remaining input. -/
def propMatchAt (cs : List Char) : Option (List Char × List Char) :=
  match cs with
  | [] => none
  | c0 :: rest0 =>
    if c0.isAlpha || c0 = '_' || c0 = '$' then
      let name := rest0.takeWhile (fun c => c.isAlphanum || c = '_' || c = '$')
      let r1 := rest0.drop name.length
      let qr := match r1 with
        | '?' :: r => (['?'], r)
        | _ => (([] : List Char), r1)
      let ws := qr.2.takeWhile (·.isWhitespace)
      match qr.2.drop ws.length with
      | ':' :: r4 =>
        let body := r4.takeWhile (· ≠ ';')
        if body.isEmpty then none
        else some (c0 :: name ++ qr.1 ++ ws ++ ':' :: body, r4.drop body.length)
      | _ => none
    else none

/-- The global scan of
`interfaceCode.match(/[a-zA-Z_$][a-zA-Z0-9_$]*\??\s*:\s*[^;]+/g)`.
Fuel-driven left-to-right scan (`length + 1` fuel always suffices). -/
def propMatches : Nat → List Char → List (List Char)
  | 0, _ => []
  | _ + 1, [] => []
  | fuel + 1, c :: rest =>
    match propMatchAt (c :: rest) with
    | some m => m.1 :: propMatches fuel m.2
    | none => propMatches fuel rest

/-- Word-character status of position `i` (out of range counts as
non-word). -/
def wordAtPos (cs : List Char) (i : Nat) : Bool :=
  match cs.drop i with
  | c :: _ => isWordChar c
  | [] => false

/-- A `\b` word boundary at position `i`. -/
def boundaryAt (cs : List Char) (i : Nat) : Bool :=
  (if i = 0 then false else wordAtPos cs (i - 1)) != wordAtPos cs i

/-- `new RegExp(`\\b${type}\\b`).test(content)`. -/
def wbTest (ty content : String) : Bool :=
  let cs := content.data
  let n := ty.data
  (List.range (cs.length + 1)).any (fun i =>
    n.isPrefixOf (cs.drop i) && boundaryAt cs i && boundaryAt cs (i + n.length))

/-- `Array.from(set).sort()`: lexicographic string sort (insertion
sort). -/
def insertSorted (x : String) : List String → List String
  | [] => [x]
  | y :: rest => if x ≤ y then x :: y :: rest else y :: insertSorted x rest

def sortStrings (l : List String) : List String :=
  l.foldr insertSorted []

/-- The `hookTypesUsed` contribution of one endpoint in
`generateReactHooks`: type names extracted from its response type and
(for non-GET/DELETE methods with a body schema) its request-body type. -/
def endpointHookTypes (schemas : Registry) (te : TaggedEndpoint) (acc : List String) :
    List String :=
  let acc := match te.endpointInfo.responses with
    | some resps =>
      match responseSchemaLoop resps successCodes with
      | some sch =>
        let rt := convertTypeToTs sch schemas
        extractTypeNamesFromType (rt.length + 1) rt acc schemas
      | none => acc
    | none => acc
  if jsToLower te.method != "get" && jsToLower te.method != "delete" then
    match te.endpointInfo.requestBody with
    | some rb =>
      match bodySchemaOf rb with
      | some sch =>
        let bt := convertTypeToTs sch schemas
        extractTypeNamesFromType (bt.length + 1) bt acc schemas
      | none => acc
    | none => acc
  else acc

/-- The `hookTypesUsed` contribution of one generated parameter
interface: its captured interface name plus the type names extracted
from each property match's text after the colon. -/
def interfaceHookTypes (schemas : Registry) (interfaceCode : String) (acc : List String) :
    List String :=
  let acc := match matchInterfaceName interfaceCode with
    | some nm => addUnique acc nm
    | none => acc
  (propMatches (interfaceCode.length + 1) interfaceCode.data).foldl
    (fun acc property =>
      let propertyStr := String.mk property
      match strIndexOf propertyStr ':' with
      | some colonIndex =>
        let typePart := (String.mk (property.drop (colonIndex + 1))).trim
        let typePart :=
          if typePart.endsWith ";" then (String.mk typePart.data.dropLast).trim
          else typePart
        extractTypeNamesFromType (typePart.length + 1) typePart acc schemas
      | none => acc) acc

/-- Embedding of `generateReactHooks(swaggerDoc)` (`src/index.ts`):
grouping, closure computation, type/hook emission, and the
generate-then-prune import analysis.  `render` is the external per-hook
template engine (§6).  As in `generateHandlebarsResources`,
`Object.entries(swaggerDoc.paths)` throws a `TypeError` when `paths` is
absent. -/
def generateReactHooks (render : HookData → String) (swaggerDoc : SwaggerDoc) :
    Except String (List (String × Artifact)) :=
  let schemas := match swaggerDoc.components with
    | some c => (c.schemas).getD []
    | none => []
  match swaggerDoc.paths with
  | none => .error typeErrorMsg
  | some paths =>
    .ok ((groupEndpointsByTag paths).map (fun tg =>
      let tag := tg.1
      let endpoints := tg.2
      let allNeededSchemas := findAllReferencedSchemas (directlyUsedSchemas schemas endpoints) schemas
      let typesContent := typesForSchemas schemas allNeededSchemas
        ("// " ++ toPascalCase tag ++ " API Types\n\n")
      let hookTypesUsed := endpoints.foldl (fun acc te => endpointHookTypes schemas te acc) []
      let allHookContents := endpoints.map (fun ep =>
        generateReactQueryHook render ep.path ep.method ep.endpointInfo schemas)
      let allParamInterfaces := paramInterfacesOf schemas endpoints
      let hookTypesUsed := allParamInterfaces.foldl
        (fun acc ic => interfaceHookTypes schemas ic acc) hookTypesUsed
      let typesContentWithParamInterfaces :=
        typesContent ++ String.join (allParamInterfaces.map (· ++ "\n"))
      let fullHooksContent :=
        "// " ++ toPascalCase tag ++ " API Hooks\n"
        ++ "import \x7b useQuery, useMutation, useQueryClient \x7d from \x27react-query\x27;\n"
        ++ "import axios from \x27axios\x27;\n"
        ++ (if hookTypesUsed.length > 0 then
              "import type \x7b " ++ String.intercalate ", " hookTypesUsed ++
                " \x7d from \x27./" ++ toCamelCase tag ++ ".types\x27;\n\n"
            else "\n")
        ++ String.join (allHookContents.map (· ++ "\n"))
      let usedReactQueryFunctions :=
        (if substrOccurs "useQuery(" fullHooksContent then ["useQuery"] else [])
        ++ (if substrOccurs "useMutation(" fullHooksContent then ["useMutation"] else [])
        ++ (if substrOccurs "useQueryClient()" fullHooksContent
              || substrOccurs "queryClient." fullHooksContent then ["useQueryClient"] else [])
      let usedTypes := hookTypesUsed.foldl
        (fun acc ty => if wbTest ty fullHooksContent then addUnique acc ty else acc) []
      let reactQueryImports := sortStrings usedReactQueryFunctions
      let hooksContent :=
        "// " ++ toPascalCase tag ++ " API Hooks\n"
        ++ (if reactQueryImports.length > 0 then
              "import \x7b " ++ String.intercalate ", " reactQueryImports ++
                " \x7d from \x27react-query\x27;\n"
            else "")
        ++ "import axios from \x27axios\x27;\n"
        ++ (if usedTypes.length > 0 then
              "import type \x7b " ++ String.intercalate ", " usedTypes ++
                " \x7d from \x27./" ++ toCamelCase tag ++ ".types\x27;\n\n"
            else "\n")
        ++ String.join (allHookContents.map (· ++ "\n"))
      (tag, ⟨hooksContent, typesContentWithParamInterfaces⟩)))

/-! ### Definitions used to state the claims -/

/-- The resolution of one `oneOf`/`anyOf` member as performed inline by
the source: `$ref` members yield their last path segment, members with a
truthy `type` recurse into `convertTypeToTs`, anything else is `any`. -/
def memberResolve (reg : Registry) (i : Schema) : String :=
  if truthyRef i then lastSegment ((i.ref).getD "")
  else if truthyType i.type then convertTypeToTs i reg
  else "any"

/-- One rendered property line of an inline object type. -/
def propLine (reg : Registry) (req : List String) (p : String × Schema) : String :=
  propJsDoc p.2 ++ "    " ++ p.1 ++ (if req.contains p.1 then "" else "?") ++
    ": " ++ convertTypeToTs p.2 reg ++ ";"

/-- Erase a node's own top-level `required` list (used to state that the
`allOf` merge ignores the member nodes' `required` lists). -/
def clearRequired : Schema → Schema
  | .mk r al oo ao ty en it pr _ f d tt => .mk r al oo ao ty en it pr none f d tt

/-- Replace a node's `allOf` member list. -/
def setAllOf : Schema → List Schema → Schema
  | .mk r _ oo ao ty en it pr rq f d tt, ms => .mk r (some ms) oo ao ty en it pr rq f d tt

/-- Closure property of a name set under the reference relation computed
by `findSchemaReferences`: every registered reference of a member is a
member. -/
def closedUnderRefs (reg : Registry) (res : List String) : Prop :=
  ∀ a ∈ res, ∀ sch, lookupSchema reg a = some sch →
    ∀ b ∈ findSchemaReferences sch reg, (lookupSchema reg b).isSome → b ∈ res

/-! ### Concrete sample inputs (used by witnesses and counterexamples) -/

/-- `{type: "string"}`. -/
def strSchema : Schema :=
  .mk none none none none (some (.single "string")) none none none none none none none

/-- `{type: "integer", enum: ["a", "b"]}`. -/
def intEnumSchema : Schema :=
  .mk none none none none (some (.single "integer")) (some ["a", "b"]) none none none none none none

/-- `{type: "string", enum: ["a", "b"]}`. -/
def strEnumSchema : Schema :=
  .mk none none none none (some (.single "string")) (some ["a", "b"]) none none none none none none

/-- `{oneOf: [{type: "string"}, {type: "string"}]}`. -/
def dupOneOfSchema : Schema :=
  .mk none none (some [strSchema, strSchema]) none none none none none none none none none

/-- `{oneOf: []}`. -/
def emptyOneOfSchema : Schema :=
  .mk none none (some []) none none none none none none none none none

/-- `{type: ["string", "null"]}`. -/
def nullableStrSchema : Schema :=
  .mk none none none none (some (.multi ["string", "null"])) none none none none none none none

/-- A registry where `A` references `B` through a property, `B` references
`C` through array items, and `C` is a plain scalar. -/
def regABC : Registry :=
  [("A", .mk none none none none (some (.single "object")) none none
      (some [("b", refSchema "#/components/schemas/B")]) none none none none),
   ("B", .mk none none none none (some (.single "array")) none
      (some (refSchema "#/components/schemas/C")) none none none none none),
   ("C", strSchema)]

/-- A registry with a `$ref` cycle: `A` references `B` and `B` references
`A`. -/
def cycReg : Registry :=
  [("A", refSchema "#/components/schemas/B"),
   ("B", refSchema "#/components/schemas/A")]

/-- The node registered under `A` in `cycReg`. -/
def cycA : Schema := refSchema "#/components/schemas/B"

/-- `{allOf: [{type: "object", properties: {a: {type: "string"}},
required: ["a"]}]}` — the member marks `a` required, the `allOf` node
itself has no top-level `required`. -/
def allOfMemberSchema : Schema :=
  .mk none none none none (some (.single "object")) none none
    (some [("a", strSchema)]) (some ["a"]) none none none

def allOfSampleSchema : Schema :=
  .mk none (some [allOfMemberSchema]) none none none none none none none none none none

/-- An endpoint whose `200` response has no JSON content while `201`
carries one, tagged with `operationId` `userController_getUser`. -/
def epSample : EndpointInfo :=
  ⟨some ["User"], some "userController_getUser",
    some [⟨"id", "path", some true, some strSchema⟩], none,
    some [("200", ⟨none⟩),
      ("201", ⟨some [("application/json", ⟨some strSchema⟩)]⟩)]⟩

/-! ### Measure lemmas and resolver meta-theory -/

theorem msize_eq (t : Schema) :
    msize t = 1 + msizeLO t.allOf + msizeLO t.oneOf + msizeLO t.anyOf +
      msizeTy t.type + msizeO t.items + msizeP t.properties := by
  cases t; simp [msize, Schema.allOf, Schema.oneOf, Schema.anyOf, Schema.type,
    Schema.items, Schema.properties]

theorem msize_pos (t : Schema) : 1 ≤ msize t := by
  rw [msize_eq]; omega

theorem msizeL_cons (s : Schema) (r : List Schema) :
    msizeL (s :: r) = 1 + msize s + msizeL r := by
  simp [msizeL]

theorem msizePL_cons (p : String × Schema) (r : List (String × Schema)) :
    msizePL (p :: r) = 1 + msize p.2 + msizePL r := by
  simp [msizePL]

theorem msize_objectSchema (props : List (String × Schema)) (req : Option (List String)) :
    msize (objectSchema props req) = 3 + msizePL props := by
  simp [objectSchema, msize, msizeLO, msizeTy, msizeO, msizeP]; omega

theorem msize_setTypeSingle (t : Schema) (s : String) :
    msize (setTypeSingle t s) + msizeTy t.type = msize t + 1 := by
  cases t; simp [setTypeSingle, msize, Schema.type, msizeTy]; omega

theorem msizePL_assignOne (acc : List (String × Schema)) (kv : String × Schema) :
    msizePL (assignOne acc kv) ≤ msizePL acc + 1 + msize kv.2 := by
  induction acc with
  | nil => simp [assignOne, msizePL]
  | cons p rest ih =>
    by_cases h : p.1 == kv.1
    · simp [assignOne, h, msizePL_cons]; omega
    · simp [assignOne, h, msizePL_cons]; omega

theorem msizePL_jsAssign (l : List (String × Schema)) :
    ∀ acc, msizePL (jsAssign acc l) ≤ msizePL acc + msizePL l := by
  induction l with
  | nil => intro acc; simp [jsAssign, msizePL]
  | cons p rest ih =>
    intro acc
    have h1 := msizePL_assignOne acc p
    have h2 := ih (assignOne acc p)
    simp only [jsAssign, List.foldl] at *
    rw [msizePL_cons]
    omega

theorem msize_inline (i : Schema) (pr : List (String × Schema))
    (hty : i.type = some (.single "object")) (hpr : i.properties = some pr) :
    3 + msizePL pr ≤ msize i := by
  rw [msize_eq, hty, hpr]
  simp [msizeTy, msizeP]
  omega

theorem allOfFold_bound (items : List Schema) :
    (∀ acc, items.foldl allOfStep acc = acc) ∨
    (∀ acc, msizePL (items.foldl allOfStep acc) + 4 ≤ msizePL acc + msizeL items) := by
  induction items with
  | nil => left; intro acc; simp
  | cons m rest ih =>
    by_cases href : truthyRef m = true
    · have step_eq : ∀ acc, allOfStep acc m = acc := by
        intro acc; unfold allOfStep; rw [if_pos href]
      rcases ih with h | h
      · left; intro acc
        simp only [List.foldl, step_eq]
        exact h acc
      · right; intro acc
        have := h acc
        simp only [List.foldl, step_eq]
        rw [msizeL_cons]
        omega
    · by_cases hinl : (m.type == some (.single "object") && (m.properties).isSome) = true
      · obtain ⟨hty, hpr⟩ := Bool.and_eq_true_iff.mp hinl
        obtain ⟨pr, hpr'⟩ := Option.isSome_iff_exists.mp hpr
        have hty' : m.type = some (.single "object") := eq_of_beq hty
        have hbig := msize_inline m pr hty' hpr'
        have step_eq : ∀ acc, allOfStep acc m = jsAssign acc pr := by
          intro acc; unfold allOfStep
          rw [if_neg href, if_pos hinl, hpr']; rfl
        right; intro acc
        have hja := msizePL_jsAssign pr acc
        simp only [List.foldl, step_eq]
        rw [msizeL_cons]
        rcases ih with h | h
        · rw [h (jsAssign acc pr)]
          omega
        · have := h (jsAssign acc pr)
          omega
      · have step_eq : ∀ acc, allOfStep acc m = acc := by
          intro acc; unfold allOfStep
          rw [if_neg href, if_neg hinl]
        rcases ih with h | h
        · left; intro acc
          simp only [List.foldl, step_eq]
          exact h acc
        · right; intro acc
          have := h acc
          simp only [List.foldl, step_eq]
          rw [msizeL_cons]
          omega

theorem allOfCombined_bound (items : List Schema)
    (h : allOfCombined items ≠ []) :
    msizePL (allOfCombined items) + 4 ≤ msizeL items := by
  rcases allOfFold_bound items with hid | hb
  · exact absurd (hid []) h
  · have := hb []
    simpa [allOfCombined, msizePL] using this

theorem msize_setTypeSingle_indep (t : Schema) (s s' : String) :
    msize (setTypeSingle t s) = msize (setTypeSingle t s') := by
  have h1 := msize_setTypeSingle t s
  have h2 := msize_setTypeSingle t s'
  omega

theorem msize_allOf (t : Schema) (items : List Schema) (h : t.allOf = some items) :
    2 + msizeL items ≤ msize t := by
  rw [msize_eq t, h]; simp [msizeLO]; omega

theorem msize_oneOf (t : Schema) (l : List Schema) (h : t.oneOf = some l) :
    2 + msizeL l ≤ msize t := by
  rw [msize_eq t, h]; simp [msizeLO]; omega

theorem msize_anyOf (t : Schema) (l : List Schema) (h : t.anyOf = some l) :
    2 + msizeL l ≤ msize t := by
  rw [msize_eq t, h]; simp [msizeLO]; omega

theorem msize_items (t : Schema) (it : Schema) (h : t.items = some it) :
    2 + msize it ≤ msize t := by
  rw [msize_eq t, h]; simp [msizeO]; omega

theorem msize_properties (t : Schema) (ps : List (String × Schema)) (h : t.properties = some ps) :
    2 + msizePL ps ≤ msize t := by
  rw [msize_eq t, h]; simp [msizeP]; omega

theorem msize_multi (t : Schema) (ts : List String) (h : t.type = some (.multi ts)) (s : String) :
    msize (setTypeSingle t s) + 2 + ts.length = msize t := by
  have h1 := msize_setTypeSingle t s
  rw [h] at h1
  simp [msizeTy] at h1
  omega

theorem convert_suff : ∀ fuel,
    (∀ t reg, msize t ≤ fuel → (convertF fuel t reg).isSome) ∧
    (∀ l reg, msizeL l < fuel → (convertMembers fuel l reg).isSome) ∧
    (∀ t ss reg, msize (setTypeSingle t "") + ss.length < fuel →
      (convertSingles fuel t ss reg).isSome) ∧
    (∀ req ps reg, msizePL ps < fuel → (convertProps fuel req ps reg).isSome) := by
  intro fuel
  induction fuel with
  | zero =>
    refine ⟨fun t reg h => absurd h ?_, fun l reg h => absurd h (by omega),
      fun t ss reg h => absurd h (by omega), fun req ps reg h => absurd h (by omega)⟩
    have := msize_pos t; omega
  | succ fuel ih =>
    obtain ⟨ihF, ihM, ihS, ihP⟩ := ih
    refine ⟨?_, ?_, ?_, ?_⟩
    · -- convertF
      intro t reg h
      simp only [convertF]
      by_cases href : truthyRef t = true
      · simp [href]
      · by_cases hall : (t.allOf).isSome = true
        · obtain ⟨items, hitems⟩ := Option.isSome_iff_exists.mp hall
          have hallb := msize_allOf t items hitems
          by_cases hcomb : (allOfCombined items).isEmpty = true
          · simp [href, hitems, hcomb]
            split <;> simp
          · have hcne : allOfCombined items ≠ [] := by
              intro hh; rw [hh] at hcomb; simp at hcomb
            have hbound := allOfCombined_bound items hcne
            have hobj : msize (objectSchema (allOfCombined items) t.required) ≤ fuel := by
              rw [msize_objectSchema]; omega
            have hsome := ihF (objectSchema (allOfCombined items) t.required) reg hobj
            obtain ⟨v, hv⟩ := Option.isSome_iff_exists.mp hsome
            by_cases hrt : (allOfRefTypes items).isEmpty = true <;>
              simp [href, hitems, hcomb, hrt, hv]
        · by_cases hone : (t.oneOf).isSome = true
          · obtain ⟨l, hl⟩ := Option.isSome_iff_exists.mp hone
            have hb := msize_oneOf t l hl
            have hsome := ihM l reg (by omega)
            obtain ⟨v, hv⟩ := Option.isSome_iff_exists.mp hsome
            simp [href, hall, hl, hv]
          · by_cases hany : (t.anyOf).isSome = true
            · obtain ⟨l, hl⟩ := Option.isSome_iff_exists.mp hany
              have hb := msize_anyOf t l hl
              have hsome := ihM l reg (by omega)
              obtain ⟨v, hv⟩ := Option.isSome_iff_exists.mp hsome
              simp [href, hall, hone, hl, hv]
            · match hty : t.type with
              | some (.multi ts) =>
                have hmb := msize_multi t ts hty ""
                by_cases hnull : ts.contains "null" = true
                · have hmem : "null" ∈ ts := by simpa using hnull
                  by_cases hlen : (ts.filter (· != "null")).length = 1
                  · have hsome : (convertF fuel
                        (setTypeSingle t ((ts.find? (· != "null")).getD "")) reg).isSome := by
                      refine ihF _ reg ?_
                      rw [msize_setTypeSingle_indep t _ ""]
                      omega
                    obtain ⟨v, hv⟩ := Option.isSome_iff_exists.mp hsome
                    simp [href, hall, hone, hany, hty, hmem, hlen, hv]
                  · have hsome : (convertSingles fuel t (ts.filter (· != "null")) reg).isSome := by
                      refine ihS t _ reg ?_
                      have := List.length_filter_le (· != "null") ts
                      omega
                    obtain ⟨v, hv⟩ := Option.isSome_iff_exists.mp hsome
                    simp [href, hall, hone, hany, hty, hmem, hlen, hv]
                · have hnmem : "null" ∉ ts := by simpa using hnull
                  have hsome : (convertSingles fuel t ts reg).isSome := ihS t ts reg (by omega)
                  obtain ⟨v, hv⟩ := Option.isSome_iff_exists.mp hsome
                  simp [href, hall, hone, hany, hty, hnmem, hv]
              | some (.single s) =>
                by_cases hs : s = "string"
                · cases t.enum <;> simp [href, hall, hone, hany, hty, hs]
                · by_cases hn : s = "integer" ∨ s = "number"
                  · rcases hn with hn | hn <;> simp [href, hall, hone, hany, hty, hs, hn]
                  · by_cases hbool : s = "boolean"
                    · simp [href, hall, hone, hany, hty, hs, hn, hbool]
                    · by_cases harr : s = "array"
                      · match hit : t.items with
                        | some it =>
                          have hib := msize_items t it hit
                          have hsome := ihF it reg (by omega)
                          obtain ⟨v, hv⟩ := Option.isSome_iff_exists.mp hsome
                          simp [href, hall, hone, hany, hty, hs, hn, hbool, harr, hit, hv]
                        | none => simp [href, hall, hone, hany, hty, hs, hn, hbool, harr, hit]
                      · by_cases hobj : s = "object"
                        · match hps : t.properties with
                          | some ps =>
                            have hpb := msize_properties t ps hps
                            have hsome := ihP ((t.required).getD []) ps reg (by omega)
                            obtain ⟨v, hv⟩ := Option.isSome_iff_exists.mp hsome
                            simp [href, hall, hone, hany, hty, hs, hn, hbool, harr, hobj, hps, hv]
                          | none =>
                            simp [href, hall, hone, hany, hty, hs, hn, hbool, harr, hobj, hps]
                        · by_cases hnl : s = "null" <;>
                            simp [href, hall, hone, hany, hty, hs, hn, hbool, harr, hobj, hnl]
              | none => simp [href, hall, hone, hany, hty]
    · -- convertMembers
      intro l reg h
      match l with
      | [] => simp [convertMembers]
      | i :: rest =>
        rw [msizeL_cons] at h
        have hpos := msize_pos i
        have htl : (convertMembers fuel rest reg).isSome := ihM rest reg (by omega)
        obtain ⟨hs, hhs⟩ := Option.isSome_iff_exists.mp htl
        simp only [convertMembers]
        by_cases href : truthyRef i = true
        · simp [href, hhs]
        · by_cases hty : truthyType i.type = true
          · have hhd : (convertF fuel i reg).isSome := ihF i reg (by omega)
            obtain ⟨v, hv⟩ := Option.isSome_iff_exists.mp hhd
            simp [href, hty, hv, hhs]
          · simp [href, hty, hhs]
    · -- convertSingles
      intro t ss reg h
      match ss with
      | [] => simp [convertSingles]
      | s :: rest =>
        simp only [List.length_cons] at h
        have hhd : (convertF fuel (setTypeSingle t s) reg).isSome := by
          refine ihF _ reg ?_
          rw [msize_setTypeSingle_indep t s ""]
          omega
        have htl : (convertSingles fuel t rest reg).isSome := ihS t rest reg (by omega)
        obtain ⟨v, hv⟩ := Option.isSome_iff_exists.mp hhd
        obtain ⟨vs, hvs⟩ := Option.isSome_iff_exists.mp htl
        simp [convertSingles, hv, hvs]
    · -- convertProps
      intro req ps reg h
      match ps with
      | [] => simp [convertProps]
      | p :: rest =>
        rw [msizePL_cons] at h
        have hhd : (convertF fuel p.2 reg).isSome := ihF p.2 reg (by omega)
        have htl : (convertProps fuel req rest reg).isSome := ihP req rest reg (by omega)
        obtain ⟨v, hv⟩ := Option.isSome_iff_exists.mp hhd
        obtain ⟨vs, hvs⟩ := Option.isSome_iff_exists.mp htl
        simp [convertProps, hv, hvs]

theorem convert_stable : ∀ f₁,
    (∀ t reg₁ reg₂ f₂, msize t ≤ f₁ → msize t ≤ f₂ →
      convertF f₁ t reg₁ = convertF f₂ t reg₂) ∧
    (∀ l reg₁ reg₂ f₂, msizeL l < f₁ → msizeL l < f₂ →
      convertMembers f₁ l reg₁ = convertMembers f₂ l reg₂) ∧
    (∀ t ss reg₁ reg₂ f₂, msize (setTypeSingle t "") + ss.length < f₁ →
      msize (setTypeSingle t "") + ss.length < f₂ →
      convertSingles f₁ t ss reg₁ = convertSingles f₂ t ss reg₂) ∧
    (∀ req ps reg₁ reg₂ f₂, msizePL ps < f₁ → msizePL ps < f₂ →
      convertProps f₁ req ps reg₁ = convertProps f₂ req ps reg₂) := by
  intro f₁
  induction f₁ with
  | zero =>
    refine ⟨fun t reg₁ reg₂ f₂ h _ => absurd h ?_, fun l reg₁ reg₂ f₂ h _ => absurd h (by omega),
      fun t ss reg₁ reg₂ f₂ h _ => absurd h (by omega),
      fun req ps reg₁ reg₂ f₂ h _ => absurd h (by omega)⟩
    have := msize_pos t; omega
  | succ fuel ih =>
    obtain ⟨ihF, ihM, ihS, ihP⟩ := ih
    refine ⟨?_, ?_, ?_, ?_⟩
    · -- convertF
      intro t reg₁ reg₂ f₂ h h₂
      have hpos := msize_pos t
      obtain ⟨m, rfl⟩ : ∃ m, f₂ = m + 1 := ⟨f₂ - 1, by omega⟩
      simp only [convertF]
      by_cases href : truthyRef t = true
      · simp [href]
      · by_cases hall : (t.allOf).isSome = true
        · obtain ⟨items, hitems⟩ := Option.isSome_iff_exists.mp hall
          have hallb := msize_allOf t items hitems
          by_cases hcomb : (allOfCombined items).isEmpty = true
          · simp [href, hitems, hcomb]
          · have hcne : allOfCombined items ≠ [] := by
              intro hh; rw [hh] at hcomb; simp at hcomb
            have hbound := allOfCombined_bound items hcne
            have hrec := ihF (objectSchema (allOfCombined items) t.required) reg₁ reg₂ m
              (by rw [msize_objectSchema]; omega) (by rw [msize_objectSchema]; omega)
            by_cases hrt : (allOfRefTypes items).isEmpty = true <;>
              simp [href, hitems, hcomb, hrt, hrec]
        · by_cases hone : (t.oneOf).isSome = true
          · obtain ⟨l, hl⟩ := Option.isSome_iff_exists.mp hone
            have hb := msize_oneOf t l hl
            have hrec := ihM l reg₁ reg₂ m (by omega) (by omega)
            simp [href, hall, hl, hrec]
          · by_cases hany : (t.anyOf).isSome = true
            · obtain ⟨l, hl⟩ := Option.isSome_iff_exists.mp hany
              have hb := msize_anyOf t l hl
              have hrec := ihM l reg₁ reg₂ m (by omega) (by omega)
              simp [href, hall, hone, hl, hrec]
            · match hty : t.type with
              | some (.multi ts) =>
                have hmb := msize_multi t ts hty ""
                by_cases hnull : ts.contains "null" = true
                · have hmem : "null" ∈ ts := by simpa using hnull
                  by_cases hlen : (ts.filter (· != "null")).length = 1
                  · have hrec := ihF (setTypeSingle t ((ts.find? (· != "null")).getD "")) reg₁ reg₂ m
                      (by rw [msize_setTypeSingle_indep t _ ""]; omega)
                      (by rw [msize_setTypeSingle_indep t _ ""]; omega)
                    simp [href, hall, hone, hany, hty, hmem, hlen, hrec]
                  · have hfl := List.length_filter_le (· != "null") ts
                    have hrec := ihS t (ts.filter (· != "null")) reg₁ reg₂ m
                      (by omega) (by omega)
                    simp [href, hall, hone, hany, hty, hmem, hlen, hrec]
                · have hnmem : "null" ∉ ts := by simpa using hnull
                  have hrec := ihS t ts reg₁ reg₂ m (by omega) (by omega)
                  simp [href, hall, hone, hany, hty, hnmem, hrec]
              | some (.single s) =>
                by_cases hs : s = "string"
                · cases t.enum <;> simp [href, hall, hone, hany, hty, hs]
                · by_cases hn : s = "integer" ∨ s = "number"
                  · rcases hn with hn | hn <;> simp [href, hall, hone, hany, hty, hs, hn]
                  · by_cases hbool : s = "boolean"
                    · simp [href, hall, hone, hany, hty, hs, hn, hbool]
                    · by_cases harr : s = "array"
                      · match hit : t.items with
                        | some it =>
                          have hib := msize_items t it hit
                          have hrec := ihF it reg₁ reg₂ m (by omega) (by omega)
                          simp [href, hall, hone, hany, hty, hs, hn, hbool, harr, hit, hrec]
                        | none => simp [href, hall, hone, hany, hty, hs, hn, hbool, harr, hit]
                      · by_cases hobj : s = "object"
                        · match hps : t.properties with
                          | some ps =>
                            have hpb := msize_properties t ps hps
                            have hrec := ihP ((t.required).getD []) ps reg₁ reg₂ m
                              (by omega) (by omega)
                            simp [href, hall, hone, hany, hty, hs, hn, hbool, harr, hobj, hps, hrec]
                          | none =>
                            simp [href, hall, hone, hany, hty, hs, hn, hbool, harr, hobj, hps]
                        · by_cases hnl : s = "null" <;>
                            simp [href, hall, hone, hany, hty, hs, hn, hbool, harr, hobj, hnl]
              | none => simp [href, hall, hone, hany, hty]
    · -- convertMembers
      intro l reg₁ reg₂ f₂ h h₂
      obtain ⟨m, rfl⟩ : ∃ m, f₂ = m + 1 := ⟨f₂ - 1, by omega⟩
      match l with
      | [] => simp [convertMembers]
      | i :: rest =>
        rw [msizeL_cons] at h h₂
        have hpos := msize_pos i
        have htl := ihM rest reg₁ reg₂ m (by omega) (by omega)
        simp only [convertMembers]
        by_cases href : truthyRef i = true
        · simp [href, htl]
        · by_cases hty : truthyType i.type = true
          · have hhd := ihF i reg₁ reg₂ m (by omega) (by omega)
            simp [href, hty, hhd, htl]
          · simp [href, hty, htl]
    · -- convertSingles
      intro t ss reg₁ reg₂ f₂ h h₂
      obtain ⟨m, rfl⟩ : ∃ m, f₂ = m + 1 := ⟨f₂ - 1, by omega⟩
      match ss with
      | [] => simp [convertSingles]
      | s :: rest =>
        simp only [List.length_cons] at h h₂
        have hhd := ihF (setTypeSingle t s) reg₁ reg₂ m
          (by rw [msize_setTypeSingle_indep t s ""]; omega)
          (by rw [msize_setTypeSingle_indep t s ""]; omega)
        have htl := ihS t rest reg₁ reg₂ m (by omega) (by omega)
        simp only [convertSingles]
        rw [hhd, htl]
    · -- convertProps
      intro req ps reg₁ reg₂ f₂ h h₂
      obtain ⟨m, rfl⟩ : ∃ m, f₂ = m + 1 := ⟨f₂ - 1, by omega⟩
      match ps with
      | [] => simp [convertProps]
      | p :: rest =>
        rw [msizePL_cons] at h h₂
        have hpos := msize_pos p.2
        have hhd := ihF p.2 reg₁ reg₂ m (by omega) (by omega)
        have htl := ihP req rest reg₁ reg₂ m (by omega) (by omega)
        simp only [convertProps]
        rw [hhd, htl]

theorem convertF_eq_total (t : Schema) (reg : Registry) {fuel : Nat} (h : msize t ≤ fuel) :
    convertF fuel t reg = some (convertTypeToTs t reg) := by
  obtain ⟨s, hs⟩ := Option.isSome_iff_exists.mp ((convert_suff (msize t)).1 t reg le_rfl)
  have h2 := (convert_stable fuel).1 t reg reg (msize t) h le_rfl
  rw [h2, hs]
  simp [convertTypeToTs, hs]

theorem convertTypeToTs_regIrrel (t : Schema) (reg₁ reg₂ : Registry) :
    convertTypeToTs t reg₁ = convertTypeToTs t reg₂ := by
  unfold convertTypeToTs
  rw [(convert_stable (msize t)).1 t reg₁ reg₂ (msize t) le_rfl le_rfl]

theorem convertMembers_eq (l : List Schema) (reg : Registry) :
    ∀ fuel, msizeL l < fuel → convertMembers fuel l reg = some (l.map (memberResolve reg)) := by
  induction l with
  | nil =>
    intro fuel h
    obtain ⟨m, rfl⟩ : ∃ m, fuel = m + 1 := ⟨fuel - 1, by omega⟩
    simp [convertMembers]
  | cons i rest ih =>
    intro fuel h
    obtain ⟨m, rfl⟩ : ∃ m, fuel = m + 1 := ⟨fuel - 1, by omega⟩
    rw [msizeL_cons] at h
    have hpos := msize_pos i
    have htl := ih m (by omega)
    simp only [convertMembers, htl, List.map]
    by_cases href : truthyRef i = true
    · simp [href, memberResolve]
    · by_cases hty : truthyType i.type = true
      · have hc := @convertF_eq_total i reg m (by omega)
        simp [href, hty, hc, memberResolve]
      · simp [href, hty, memberResolve]

theorem convertSingles_eq (ss : List String) (t : Schema) (reg : Registry) :
    ∀ fuel, msize (setTypeSingle t "") + ss.length < fuel →
      convertSingles fuel t ss reg =
        some (ss.map (fun s => convertTypeToTs (setTypeSingle t s) reg)) := by
  induction ss with
  | nil =>
    intro fuel h
    obtain ⟨m, rfl⟩ : ∃ m, fuel = m + 1 := ⟨fuel - 1, by omega⟩
    simp [convertSingles]
  | cons s rest ih =>
    intro fuel h
    obtain ⟨m, rfl⟩ : ∃ m, fuel = m + 1 := ⟨fuel - 1, by omega⟩
    simp only [List.length_cons] at h
    have htl := ih m (by omega)
    have hhd := @convertF_eq_total (setTypeSingle t s) reg m
      (by rw [msize_setTypeSingle_indep t s ""]; omega)
    simp [convertSingles, htl, hhd]

theorem convertProps_eq (ps : List (String × Schema)) (req : List String) (reg : Registry) :
    ∀ fuel, msizePL ps < fuel →
      convertProps fuel req ps reg = some (ps.map (propLine reg req)) := by
  induction ps with
  | nil =>
    intro fuel h
    obtain ⟨m, rfl⟩ : ∃ m, fuel = m + 1 := ⟨fuel - 1, by omega⟩
    simp [convertProps]
  | cons p rest ih =>
    intro fuel h
    obtain ⟨m, rfl⟩ : ∃ m, fuel = m + 1 := ⟨fuel - 1, by omega⟩
    rw [msizePL_cons] at h
    have hpos := msize_pos p.2
    have htl := ih m (by omega)
    have hhd := @convertF_eq_total p.2 reg m (by omega)
    simp [convertProps, htl, hhd, propLine]

theorem ct_ref_eq (t : Schema) (reg : Registry) (h : truthyRef t = true) :
    convertTypeToTs t reg =
      (if lastSegment ((t.ref).getD "") = "" then "any" else lastSegment ((t.ref).getD "")) := by
  unfold convertTypeToTs
  obtain ⟨m, hm⟩ : ∃ m, msize t = m + 1 := ⟨msize t - 1, by have := msize_pos t; omega⟩
  rw [hm]
  simp [convertF, h]

theorem ct_oneOf_eq (t : Schema) (reg : Registry) (l : List Schema)
    (h1 : truthyRef t = false) (h2 : t.allOf = none) (h3 : t.oneOf = some l) :
    convertTypeToTs t reg = joinUnion (l.map (memberResolve reg)) := by
  have hb := msize_oneOf t l h3
  unfold convertTypeToTs
  obtain ⟨m, hm⟩ : ∃ m, msize t = m + 1 := ⟨msize t - 1, by have := msize_pos t; omega⟩
  have hmem := convertMembers_eq l reg m (by omega)
  rw [hm]
  simp [convertF, h1, h2, h3, hmem]

theorem ct_anyOf_eq (t : Schema) (reg : Registry) (l : List Schema)
    (h1 : truthyRef t = false) (h2 : t.allOf = none) (h3 : t.oneOf = none)
    (h4 : t.anyOf = some l) :
    convertTypeToTs t reg = joinUnion (l.map (memberResolve reg)) := by
  have hb := msize_anyOf t l h4
  unfold convertTypeToTs
  obtain ⟨m, hm⟩ : ∃ m, msize t = m + 1 := ⟨msize t - 1, by have := msize_pos t; omega⟩
  have hmem := convertMembers_eq l reg m (by omega)
  rw [hm]
  simp [convertF, h1, h2, h3, h4, hmem]

theorem find?_eq_filter_head? {α : Type} (p : α → Bool) :
    ∀ ts : List α, ts.find? p = (ts.filter p).head? := by
  intro ts
  induction ts with
  | nil => simp
  | cons a rest ih =>
    by_cases h : p a = true
    · simp [List.find?, List.filter, h]
    · simp only [List.find?, List.filter, h]
      simpa [h] using ih

theorem intercalate_singleton (sep a : String) : String.intercalate sep [a] = a := by
  simp only [String.intercalate]
  rfl

theorem ct_multi_null_eq (t : Schema) (reg : Registry) (ts : List String)
    (h1 : truthyRef t = false) (h2 : t.allOf = none) (h3 : t.oneOf = none)
    (h4 : t.anyOf = none) (h5 : t.type = some (.multi ts)) (h6 : "null" ∈ ts) :
    convertTypeToTs t reg =
      String.intercalate " | "
        ((ts.filter (· != "null")).map (fun s => convertTypeToTs (setTypeSingle t s) reg)) ++
      " | null" := by
  have hmb := msize_multi t ts h5 ""
  obtain ⟨m, hm⟩ : ∃ m, msize t = m + 1 := ⟨msize t - 1, by have := msize_pos t; omega⟩
  by_cases hlen : (ts.filter (· != "null")).length = 1
  · obtain ⟨x, hx⟩ := List.length_eq_one.mp hlen
    have hhd := @convertF_eq_total (setTypeSingle t x) reg m
      (by rw [msize_setTypeSingle_indep t x ""]; omega)
    have hfind : (ts.find? (· != "null")).getD "" = x := by
      rw [find?_eq_filter_head?, hx]
      rfl
    have key : convertF (msize t) t reg =
        some (convertTypeToTs (setTypeSingle t x) reg ++ " | null") := by
      rw [hm]
      simp [convertF, h1, h2, h3, h4, h5, h6, hlen, hfind, hhd]
    show (convertF (msize t) t reg).getD "any" = _
    rw [key, hx]
    simp [intercalate_singleton]
  · have hfl := List.length_filter_le (· != "null") ts
    have hsg := convertSingles_eq (ts.filter (· != "null")) t reg m (by omega)
    have key : convertF (msize t) t reg =
        some (String.intercalate " | "
          ((ts.filter (· != "null")).map (fun s => convertTypeToTs (setTypeSingle t s) reg)) ++
        " | null") := by
      rw [hm]
      simp [convertF, h1, h2, h3, h4, h5, h6, hlen, hsg]
    show (convertF (msize t) t reg).getD "any" = _
    rw [key]
    rfl

theorem ct_enum_string_eq (t : Schema) (reg : Registry) (es : List String)
    (h1 : truthyRef t = false) (h2 : t.allOf = none) (h3 : t.oneOf = none)
    (h4 : t.anyOf = none) (h5 : t.type = some (.single "string")) (h6 : t.enum = some es) :
    convertTypeToTs t reg = quoteEnumDouble es := by
  obtain ⟨m, hm⟩ : ∃ m, msize t = m + 1 := ⟨msize t - 1, by have := msize_pos t; omega⟩
  have key : convertF (msize t) t reg = some (quoteEnumDouble es) := by
    rw [hm]
    simp [convertF, h1, h2, h3, h4, h5, h6]
  show (convertF (msize t) t reg).getD "any" = _
  rw [key]
  rfl

theorem ct_scalar_eq (t : Schema) (reg : Registry) (s : String)
    (h1 : truthyRef t = false) (h2 : t.allOf = none) (h3 : t.oneOf = none)
    (h4 : t.anyOf = none) (h5 : t.type = some (.single s))
    (h6 : s = "integer" ∨ s = "number") :
    convertTypeToTs t reg = "number" := by
  obtain ⟨m, hm⟩ : ∃ m, msize t = m + 1 := ⟨msize t - 1, by have := msize_pos t; omega⟩
  have hns : s ≠ "string" := by rcases h6 with h | h <;> simp [h]
  have key : convertF (msize t) t reg = some "number" := by
    rw [hm]
    simp [convertF, h1, h2, h3, h4, h5, hns, h6]
  show (convertF (msize t) t reg).getD "any" = _
  rw [key]
  rfl

theorem ct_object_eq (t : Schema) (reg : Registry) (ps : List (String × Schema))
    (h1 : truthyRef t = false) (h2 : t.allOf = none) (h3 : t.oneOf = none)
    (h4 : t.anyOf = none) (h5 : t.type = some (.single "object"))
    (h6 : t.properties = some ps) :
    convertTypeToTs t reg =
      "\x7b\n" ++
        String.intercalate "\n" (ps.map (propLine reg ((t.required).getD []))) ++
      "\n  \x7d" := by
  have hb := msize_properties t ps h6
  obtain ⟨m, hm⟩ : ∃ m, msize t = m + 1 := ⟨msize t - 1, by have := msize_pos t; omega⟩
  have hprops := convertProps_eq ps ((t.required).getD []) reg m (by omega)
  have key : convertF (msize t) t reg =
      some ("\x7b\n" ++
        String.intercalate "\n" (ps.map (propLine reg ((t.required).getD []))) ++
      "\n  \x7d") := by
    rw [hm]
    simp [convertF, h1, h2, h3, h4, h5, h6, hprops]
  show (convertF (msize t) t reg).getD "any" = _
  rw [key]
  rfl

theorem ct_allOf_inline_eq (t : Schema) (reg : Registry) (ms : List Schema)
    (h1 : truthyRef t = false) (h2 : t.allOf = some ms)
    (h3 : allOfRefTypes ms = []) (h4 : allOfCombined ms ≠ []) :
    convertTypeToTs t reg = convertTypeToTs (objectSchema (allOfCombined ms) t.required) reg := by
  have hallb := msize_allOf t ms h2
  have hbound := allOfCombined_bound ms h4
  obtain ⟨m, hm⟩ : ∃ m, msize t = m + 1 := ⟨msize t - 1, by have := msize_pos t; omega⟩
  have hrec := @convertF_eq_total (objectSchema (allOfCombined ms) t.required) reg m
    (by rw [msize_objectSchema]; omega)
  have key : convertF (msize t) t reg =
      some (convertTypeToTs (objectSchema (allOfCombined ms) t.required) reg) := by
    rw [hm]
    simp [convertF, h1, h2, h3, h4, hrec]
  show (convertF (msize t) t reg).getD "any" = _
  rw [key]
  rfl

theorem clearRequired_ref (i : Schema) : (clearRequired i).ref = i.ref := by
  cases i; rfl

theorem clearRequired_type (i : Schema) : (clearRequired i).type = i.type := by
  cases i; rfl

theorem clearRequired_properties (i : Schema) : (clearRequired i).properties = i.properties := by
  cases i; rfl

theorem truthyRef_clearRequired (i : Schema) : truthyRef (clearRequired i) = truthyRef i := by
  simp [truthyRef, clearRequired_ref]

theorem msize_clearRequired (i : Schema) : msize (clearRequired i) = msize i := by
  cases i; simp [clearRequired, msize]

theorem msizeL_map_clearRequired (ms : List Schema) :
    msizeL (ms.map clearRequired) = msizeL ms := by
  induction ms with
  | nil => rfl
  | cons i rest ih => simp [List.map, msizeL_cons, msize_clearRequired, ih]

theorem setAllOf_ref (t : Schema) (ms : List Schema) : (setAllOf t ms).ref = t.ref := by
  cases t; rfl

theorem setAllOf_allOf (t : Schema) (ms : List Schema) : (setAllOf t ms).allOf = some ms := by
  cases t; rfl

theorem setAllOf_required (t : Schema) (ms : List Schema) :
    (setAllOf t ms).required = t.required := by
  cases t; rfl

theorem truthyRef_setAllOf (t : Schema) (ms : List Schema) :
    truthyRef (setAllOf t ms) = truthyRef t := by
  simp [truthyRef, setAllOf_ref]

theorem msize_setAllOf (t : Schema) (ms ms' : List Schema) (h : t.allOf = some ms)
    (hsz : msizeL ms' = msizeL ms) : msize (setAllOf t ms') = msize t := by
  cases t
  simp only [Schema.allOf] at h
  subst h
  simp [setAllOf, msize, msizeLO, hsz]

theorem allOfRefStep_clearRequired (acc : List String) (i : Schema) :
    allOfRefStep acc (clearRequired i) = allOfRefStep acc i := by
  simp [allOfRefStep, truthyRef_clearRequired, clearRequired_ref]

theorem allOfRefTypes_map_clearRequired (ms : List Schema) :
    allOfRefTypes (ms.map clearRequired) = allOfRefTypes ms := by
  unfold allOfRefTypes
  rw [List.foldl_map]
  apply List.foldl_ext
  intro a i _
  exact allOfRefStep_clearRequired a i

theorem allOfStep_clearRequired (acc : List (String × Schema)) (i : Schema) :
    allOfStep acc (clearRequired i) = allOfStep acc i := by
  simp [allOfStep, truthyRef_clearRequired, clearRequired_type, clearRequired_properties]

theorem allOfCombined_map_clearRequired (ms : List Schema) :
    allOfCombined (ms.map clearRequired) = allOfCombined ms := by
  unfold allOfCombined
  rw [List.foldl_map]
  apply List.foldl_ext
  intro a i _
  exact allOfStep_clearRequired a i

theorem ct_allOf_both_eq (t : Schema) (reg : Registry) (ms : List Schema)
    (h1 : truthyRef t = false) (h2 : t.allOf = some ms)
    (h3 : allOfRefTypes ms ≠ []) (h4 : allOfCombined ms ≠ []) :
    convertTypeToTs t reg =
      String.intercalate " & " (allOfRefTypes ms) ++ " & " ++
        convertTypeToTs (objectSchema (allOfCombined ms) t.required) reg := by
  have hallb := msize_allOf t ms h2
  have hbound := allOfCombined_bound ms h4
  obtain ⟨m, hm⟩ : ∃ m, msize t = m + 1 := ⟨msize t - 1, by have := msize_pos t; omega⟩
  have hrec := @convertF_eq_total (objectSchema (allOfCombined ms) t.required) reg m
    (by rw [msize_objectSchema]; omega)
  have key : convertF (msize t) t reg =
      some (String.intercalate " & " (allOfRefTypes ms) ++ " & " ++
        convertTypeToTs (objectSchema (allOfCombined ms) t.required) reg) := by
    rw [hm]
    simp [convertF, h1, h2, h3, h4, hrec]
  show (convertF (msize t) t reg).getD "any" = _
  rw [key]
  rfl

theorem ct_allOf_refs_eq (t : Schema) (reg : Registry) (ms : List Schema)
    (h1 : truthyRef t = false) (h2 : t.allOf = some ms)
    (h3 : allOfRefTypes ms ≠ []) (h4 : allOfCombined ms = []) :
    convertTypeToTs t reg = String.intercalate " & " (allOfRefTypes ms) := by
  obtain ⟨m, hm⟩ : ∃ m, msize t = m + 1 := ⟨msize t - 1, by have := msize_pos t; omega⟩
  have key : convertF (msize t) t reg =
      some (String.intercalate " & " (allOfRefTypes ms)) := by
    rw [hm]
    simp [convertF, h1, h2, h3, h4]
  show (convertF (msize t) t reg).getD "any" = _
  rw [key]
  rfl

theorem ct_allOf_none_eq (t : Schema) (reg : Registry) (ms : List Schema)
    (h1 : truthyRef t = false) (h2 : t.allOf = some ms)
    (h3 : allOfRefTypes ms = []) (h4 : allOfCombined ms = []) :
    convertTypeToTs t reg = "any" := by
  obtain ⟨m, hm⟩ : ∃ m, msize t = m + 1 := ⟨msize t - 1, by have := msize_pos t; omega⟩
  have key : convertF (msize t) t reg = some "any" := by
    rw [hm]
    simp [convertF, h1, h2, h3, h4]
  show (convertF (msize t) t reg).getD "any" = _
  rw [key]
  rfl

theorem ct_allOf_required_irrel (t : Schema) (reg : Registry) (ms : List Schema)
    (h2 : t.allOf = some ms) :
    convertTypeToTs t reg = convertTypeToTs (setAllOf t (ms.map clearRequired)) reg := by
  have e_rt := allOfRefTypes_map_clearRequired ms
  have e_cb := allOfCombined_map_clearRequired ms
  have h2' : (setAllOf t (ms.map clearRequired)).allOf = some (ms.map clearRequired) :=
    setAllOf_allOf t _
  by_cases htr : truthyRef t = true
  · rw [ct_ref_eq t reg htr,
      ct_ref_eq (setAllOf t (ms.map clearRequired)) reg (by rw [truthyRef_setAllOf]; exact htr),
      setAllOf_ref]
  · have htrf : truthyRef t = false := by simpa using htr
    have htr' : truthyRef (setAllOf t (ms.map clearRequired)) = false := by
      rw [truthyRef_setAllOf]; exact htrf
    by_cases hrt : allOfRefTypes ms = []
    · by_cases hcb : allOfCombined ms = []
      · rw [ct_allOf_none_eq t reg ms htrf h2 hrt hcb,
          ct_allOf_none_eq _ reg _ htr' h2' (by rw [e_rt]; exact hrt) (by rw [e_cb]; exact hcb)]
      · rw [ct_allOf_inline_eq t reg ms htrf h2 hrt hcb,
          ct_allOf_inline_eq _ reg _ htr' h2' (by rw [e_rt]; exact hrt) (by rw [e_cb]; exact hcb),
          e_cb, setAllOf_required]
    · by_cases hcb : allOfCombined ms = []
      · rw [ct_allOf_refs_eq t reg ms htrf h2 hrt hcb,
          ct_allOf_refs_eq _ reg _ htr' h2' (by rw [e_rt]; exact hrt) (by rw [e_cb]; exact hcb),
          e_rt]
      · rw [ct_allOf_both_eq t reg ms htrf h2 hrt hcb,
          ct_allOf_both_eq _ reg _ htr' h2' (by rw [e_rt]; exact hrt) (by rw [e_cb]; exact hcb),
          e_rt, e_cb, setAllOf_required]

theorem fsr_stable : ∀ f₁,
    (∀ s reg f₂, msize s ≤ f₁ → msize s ≤ f₂ → fsrF f₁ s reg = fsrF f₂ s reg) ∧
    (∀ l reg f₂, msizeL l < f₁ → msizeL l < f₂ →
      ∀ acc, fsrListF f₁ l reg acc = fsrListF f₂ l reg acc) ∧
    (∀ ps reg f₂, msizePL ps < f₁ → msizePL ps < f₂ →
      ∀ acc, fsrPropsF f₁ ps reg acc = fsrPropsF f₂ ps reg acc) := by
  intro f₁
  induction f₁ with
  | zero =>
    refine ⟨fun s reg f₂ h _ => absurd h ?_, fun l reg f₂ h _ => absurd h (by omega),
      fun ps reg f₂ h _ => absurd h (by omega)⟩
    have := msize_pos s; omega
  | succ fuel ih =>
    obtain ⟨ihF, ihL, ihP⟩ := ih
    refine ⟨?_, ?_, ?_⟩
    · intro s reg f₂ h h₂
      have hpos := msize_pos s
      obtain ⟨m, rfl⟩ : ∃ m, f₂ = m + 1 := ⟨f₂ - 1, by omega⟩
      obtain ⟨ref, al, oo, ao, ty, en, it, pr, rq, fo, de, ti⟩ := s
      rw [msize_eq] at h h₂
      simp only [Schema.allOf, Schema.oneOf, Schema.anyOf, Schema.type, Schema.items,
        Schema.properties] at h h₂
      simp only [fsrF, Schema.allOf, Schema.oneOf, Schema.anyOf, Schema.items,
        Schema.properties, Schema.ref]
      cases pr <;> cases it <;> cases al <;> cases oo <;> cases ao <;>
        simp only [msizeLO, msizeO, msizeP] at h h₂ <;>
        dsimp only <;>
        (repeat (first
          | rw [ihP _ reg m (by omega) (by omega)]
          | rw [ihF _ reg m (by omega) (by omega)]
          | rw [ihL _ reg m (by omega) (by omega)]))
    · intro l reg f₂ h h₂
      obtain ⟨m, rfl⟩ : ∃ m, f₂ = m + 1 := ⟨f₂ - 1, by omega⟩
      match l with
      | [] => simp [fsrListF]
      | i :: rest =>
        rw [msizeL_cons] at h h₂
        have hpos := msize_pos i
        intro acc
        simp only [fsrListF]
        rw [ihF i reg m (by omega) (by omega), ihL rest reg m (by omega) (by omega)]
    · intro ps reg f₂ h h₂
      obtain ⟨m, rfl⟩ : ∃ m, f₂ = m + 1 := ⟨f₂ - 1, by omega⟩
      match ps with
      | [] => simp [fsrPropsF]
      | p :: rest =>
        rw [msizePL_cons] at h h₂
        have hpos := msize_pos p.2
        intro acc
        simp only [fsrPropsF]
        rw [ihF p.2 reg m (by omega) (by omega), ihP rest reg m (by omega) (by omega)]

/-! ### Closure (`findAllReferencedSchemas`) meta-theory -/

theorem addUnique_mem (acc : List String) (n x : String) (h : x ∈ acc) :
    x ∈ addUnique acc n := by
  unfold addUnique
  split <;> simp [h]

theorem addUnique_mem_self (acc : List String) (n : String) : n ∈ addUnique acc n := by
  unfold addUnique
  split
  · next h => simpa using h
  · simp

theorem foldl_addUnique_mem (l : List String) :
    ∀ acc x, x ∈ acc → x ∈ l.foldl addUnique acc := by
  induction l with
  | nil => intro acc x h; simpa using h
  | cons a rest ih =>
    intro acc x h
    exact ih _ x (addUnique_mem acc a x h)

theorem foldl_addUnique_mem_of_mem (l : List String) :
    ∀ acc x, x ∈ l → x ∈ l.foldl addUnique acc := by
  induction l with
  | nil => intro acc x h; simp at h
  | cons a rest ih =>
    intro acc x h
    rcases List.mem_cons.mp h with rfl | h
    · exact foldl_addUnique_mem rest _ x (addUnique_mem_self acc x)
    · exact ih _ x h

theorem refAdd_mono (reg : Registry) (l : List String) :
    ∀ st x, x ∈ st.1 → x ∈ (l.foldl (refAddStep reg) st).1 := by
  induction l with
  | nil => intro st x h; simpa using h
  | cons b rest ih =>
    intro st x h
    refine ih _ x ?_
    unfold refAddStep
    split
    · simp [h]
    · exact h

theorem refAdd_flagMono (reg : Registry) (l : List String) :
    ∀ st, st.2 = true → (l.foldl (refAddStep reg) st).2 = true := by
  induction l with
  | nil => intro st h; simpa using h
  | cons b rest ih =>
    intro st h
    refine ih _ ?_
    unfold refAddStep
    split
    · rfl
    · exact h

theorem refAdd_new (reg : Registry) (l : List String) :
    ∀ st x, x ∈ (l.foldl (refAddStep reg) st).1 →
      x ∈ st.1 ∨ (lookupSchema reg x).isSome = true := by
  induction l with
  | nil => intro st x h; exact .inl (by simpa using h)
  | cons b rest ih =>
    intro st x h
    rcases ih _ x h with h' | h'
    · unfold refAddStep at h'
      split at h'
      · next hcond =>
        rcases List.mem_append.mp h' with h'' | h''
        · exact .inl h''
        · simp only [List.mem_singleton] at h''
          subst h''
          exact .inr (by simpa using (Bool.and_eq_true_iff.mp hcond).2)
      · exact .inl h'
    · exact .inr h'

theorem refAdd_false (reg : Registry) (l : List String) :
    ∀ st, (l.foldl (refAddStep reg) st).2 = false →
      l.foldl (refAddStep reg) st = st ∧
        ∀ b ∈ l, (lookupSchema reg b).isSome = true → b ∈ st.1 := by
  induction l with
  | nil => intro st h; exact ⟨rfl, by simp⟩
  | cons b rest ih =>
    intro st h
    by_cases hcond : (!st.1.contains b && (lookupSchema reg b).isSome) = true
    · exfalso
      have hstep : refAddStep reg st b = (st.1 ++ [b], true) := by
        unfold refAddStep
        rw [if_pos hcond]
      rw [List.foldl_cons, hstep] at h
      have := refAdd_flagMono reg rest (st.1 ++ [b], true) rfl
      rw [this] at h
      exact Bool.true_eq_false.mp h
    · have hstep : refAddStep reg st b = st := by
        unfold refAddStep
        rw [if_neg hcond]
      rw [List.foldl_cons, hstep] at h
      obtain ⟨heq, hall⟩ := ih st h
      refine ⟨by rw [List.foldl_cons, hstep, heq], ?_⟩
      intro c hc hsome
      rcases List.mem_cons.mp hc with rfl | hc'
      · simp only [Bool.and_eq_true_iff, Bool.not_eq_true'] at hcond
        rcases Decidable.not_and_iff_or_not.mp hcond with hcc | hcc
        · have : st.1.contains c = true := by
            cases hcb : st.1.contains c
            · exact absurd hcb hcc
            · rfl
          simpa using this
        · exact absurd hsome hcc
      · exact hall c hc' hsome

theorem refAdd_changed (reg : Registry) (l : List String) :
    ∀ st, st.2 = false → (l.foldl (refAddStep reg) st).2 = true →
      ∃ x, x ∈ (l.foldl (refAddStep reg) st).1 ∧ x ∉ st.1 ∧
        (lookupSchema reg x).isSome = true := by
  induction l with
  | nil => intro st h0 h1; rw [List.foldl_nil] at h1; rw [h0] at h1; exact absurd h1 (by simp)
  | cons b rest ih =>
    intro st h0 h1
    by_cases hcond : (!st.1.contains b && (lookupSchema reg b).isSome) = true
    · have hstep : refAddStep reg st b = (st.1 ++ [b], true) := by
        unfold refAddStep
        rw [if_pos hcond]
      obtain ⟨hnc, hsome⟩ := Bool.and_eq_true_iff.mp hcond
      refine ⟨b, ?_, ?_, by simpa using hsome⟩
      · rw [List.foldl_cons, hstep]
        exact refAdd_mono reg rest _ b (by simp)
      · intro hmem
        rw [Bool.not_eq_true'] at hnc
        simp [hmem] at hnc
    · have hstep : refAddStep reg st b = st := by
        unfold refAddStep
        rw [if_neg hcond]
      rw [List.foldl_cons, hstep] at h1 ⊢
      exact ih st h0 h1

theorem refName_mono (reg : Registry) (a : String) (st : List String × Bool) (x : String)
    (h : x ∈ st.1) : x ∈ (refNameStep reg st a).1 := by
  unfold refNameStep
  split
  · exact refAdd_mono reg _ st x h
  · exact h

theorem refName_flagMono (reg : Registry) (a : String) (st : List String × Bool)
    (h : st.2 = true) : (refNameStep reg st a).2 = true := by
  unfold refNameStep
  split
  · exact refAdd_flagMono reg _ st h
  · exact h

theorem refName_new (reg : Registry) (a : String) (st : List String × Bool) (x : String)
    (h : x ∈ (refNameStep reg st a).1) :
    x ∈ st.1 ∨ (lookupSchema reg x).isSome = true := by
  unfold refNameStep at h
  split at h
  · exact refAdd_new reg _ st x h
  · exact .inl h

theorem refName_false (reg : Registry) (a : String) (st : List String × Bool)
    (h : (refNameStep reg st a).2 = false) :
    refNameStep reg st a = st ∧
      ∀ sch, lookupSchema reg a = some sch →
        ∀ b ∈ findSchemaReferences sch reg, (lookupSchema reg b).isSome = true → b ∈ st.1 := by
  unfold refNameStep at h ⊢
  split
  · next sch hsch =>
    rw [hsch] at h ⊢
    obtain ⟨heq, hall⟩ := refAdd_false reg _ st h
    exact ⟨heq, fun sch' hsch' => by
      rw [Option.some_inj] at hsch'
      subst hsch'
      exact hall⟩
  · next hsch =>
    rw [hsch] at h ⊢
    refine ⟨rfl, fun sch' hsch' => ?_⟩
    exact absurd hsch' (by simp)

theorem refName_changed (reg : Registry) (a : String) (st : List String × Bool)
    (h0 : st.2 = false) (h1 : (refNameStep reg st a).2 = true) :
    ∃ x, x ∈ (refNameStep reg st a).1 ∧ x ∉ st.1 ∧ (lookupSchema reg x).isSome = true := by
  unfold refNameStep at h1 ⊢
  split at h1
  · exact refAdd_changed reg _ st h0 h1
  · rw [h0] at h1; exact absurd h1 (by simp)

theorem refPass_mono (reg : Registry) (snap : List String) :
    ∀ st x, x ∈ st.1 → x ∈ (refPass reg snap st).1 := by
  induction snap with
  | nil => intro st x h; simpa [refPass] using h
  | cons a rest ih =>
    intro st x h
    exact ih _ x (refName_mono reg a st x h)

theorem refPass_flagMono (reg : Registry) (snap : List String) :
    ∀ st, st.2 = true → (refPass reg snap st).2 = true := by
  induction snap with
  | nil => intro st h; simpa [refPass] using h
  | cons a rest ih =>
    intro st h
    exact ih _ (refName_flagMono reg a st h)

theorem refPass_new (reg : Registry) (snap : List String) :
    ∀ st x, x ∈ (refPass reg snap st).1 →
      x ∈ st.1 ∨ (lookupSchema reg x).isSome = true := by
  induction snap with
  | nil => intro st x h; exact .inl (by simpa [refPass] using h)
  | cons a rest ih =>
    intro st x h
    rcases ih _ x h with h' | h'
    · exact refName_new reg a st x h'
    · exact .inr h'

theorem refPass_false (reg : Registry) (snap : List String) :
    ∀ st, (refPass reg snap st).2 = false →
      refPass reg snap st = st ∧
        ∀ a ∈ snap, ∀ sch, lookupSchema reg a = some sch →
          ∀ b ∈ findSchemaReferences sch reg, (lookupSchema reg b).isSome = true →
            b ∈ st.1 := by
  induction snap with
  | nil => intro st h; exact ⟨rfl, by simp⟩
  | cons a rest ih =>
    intro st h
    have hstep2 : (refNameStep reg st a).2 = false := by
      cases hv : (refNameStep reg st a).2
      · rfl
      · exfalso
        have : (refPass reg rest (refNameStep reg st a)).2 = true :=
          refPass_flagMono reg rest _ hv
        rw [show refPass reg (a :: rest) st = refPass reg rest (refNameStep reg st a) from rfl] at h
        rw [this] at h
        exact Bool.true_eq_false.mp h
    obtain ⟨heq1, hall1⟩ := refName_false reg a st hstep2
    rw [show refPass reg (a :: rest) st = refPass reg rest (refNameStep reg st a) from rfl,
      heq1] at h
    obtain ⟨heq2, hall2⟩ := ih st h
    refine ⟨by rw [show refPass reg (a :: rest) st = refPass reg rest (refNameStep reg st a) from rfl, heq1, heq2], ?_⟩
    intro c hc sch hsch b hb hbsome
    rcases List.mem_cons.mp hc with rfl | hc'
    · exact hall1 sch hsch b hb hbsome
    · exact hall2 c hc' sch hsch b hb hbsome

theorem refPass_changed (reg : Registry) (snap : List String) :
    ∀ st, st.2 = false → (refPass reg snap st).2 = true →
      ∃ x, x ∈ (refPass reg snap st).1 ∧ x ∉ st.1 ∧ (lookupSchema reg x).isSome = true := by
  induction snap with
  | nil => intro st h0 h1; rw [show refPass reg [] st = st from rfl] at h1; rw [h0] at h1; exact absurd h1 (by simp)
  | cons a rest ih =>
    intro st h0 h1
    rw [show refPass reg (a :: rest) st = refPass reg rest (refNameStep reg st a) from rfl] at h1 ⊢
    cases hv : (refNameStep reg st a).2
    · obtain ⟨x, hx1, hx2, hx3⟩ := ih _ hv h1
      refine ⟨x, hx1, fun hmem => hx2 ?_, hx3⟩
      exact refName_mono reg a st x hmem
    · obtain ⟨x, hx1, hx2, hx3⟩ := refName_changed reg a st h0 hv
      exact ⟨x, refPass_mono reg rest _ x hx1, hx2, hx3⟩

theorem length_filter_mono {α : Type} (L : List α) (p q : α → Bool)
    (h : ∀ e ∈ L, p e = true → q e = true) :
    (L.filter p).length ≤ (L.filter q).length := by
  induction L with
  | nil => simp
  | cons a rest ih =>
    have ih' := ih (fun e he => h e (List.mem_cons_of_mem a he))
    by_cases hpa : p a = true
    · have hqa := h a (List.mem_cons_self a rest) hpa
      simp [List.filter, hpa, hqa]
      omega
    · have hpa' : p a = false := by cases hv : p a; rfl; exact absurd hv hpa
      cases hqa : q a <;> simp [List.filter, hpa', hqa] <;> omega

theorem length_filter_lt {α : Type} (L : List α) (p q : α → Bool)
    (h : ∀ e ∈ L, p e = true → q e = true) (x : α) (hx : x ∈ L)
    (hpx : p x = false) (hqx : q x = true) :
    (L.filter p).length < (L.filter q).length := by
  induction L with
  | nil => simp at hx
  | cons a rest ih =>
    have hmono := length_filter_mono rest p q (fun e he => h e (List.mem_cons_of_mem a he))
    rcases List.mem_cons.mp hx with rfl | hx'
    · simp [List.filter, hpx, hqx]
      omega
    · have ih' := ih (fun e he => h e (List.mem_cons_of_mem a he)) hx'
      by_cases hpa : p a = true
      · have hqa := h a (List.mem_cons_self a rest) hpa
        simp [List.filter, hpa, hqa]
        omega
      · have hpa' : p a = false := by cases hv : p a; rfl; exact absurd hv hpa
        cases hqa : q a <;> simp [List.filter, hpa', hqa] <;> omega

theorem lookup_isSome_mem_keys (reg : Registry) (x : String)
    (h : (lookupSchema reg x).isSome = true) : x ∈ reg.map Prod.fst := by
  unfold lookupSchema at h
  obtain ⟨v, hv⟩ := Option.isSome_iff_exists.mp h
  obtain ⟨p, hp, _⟩ := Option.map_eq_some'.mp hv
  have hmem := List.mem_of_find?_eq_some hp
  have hkey := List.find?_some hp
  simp only [beq_iff_eq] at hkey
  exact List.mem_map.mpr ⟨p, hmem, hkey⟩

theorem refLoop_mono (reg : Registry) :
    ∀ fuel res x, x ∈ res → x ∈ refLoop reg fuel res := by
  intro fuel
  induction fuel with
  | zero => intro res x h; simpa [refLoop] using h
  | succ fuel ih =>
    intro res x h
    simp only [refLoop]
    split
    · exact ih _ x (refPass_mono reg res (res, false) x h)
    · exact refPass_mono reg res (res, false) x h

theorem refLoop_closed (reg : Registry) :
    ∀ fuel res,
      (((reg.map Prod.fst).dedup).filter (fun k => !res.contains k)).length < fuel →
      closedUnderRefs reg (refLoop reg fuel res) := by
  intro fuel
  induction fuel with
  | zero => intro res h; exact absurd h (by omega)
  | succ fuel ih =>
    intro res h
    simp only [refLoop]
    split
    · next hflag =>
      obtain ⟨x, hx1, hx2, hx3⟩ := refPass_changed reg res (res, false) rfl hflag
      refine ih _ ?_
      have hlt := length_filter_lt ((reg.map Prod.fst).dedup)
        (fun k => !(refPass reg res (res, false)).1.contains k)
        (fun k => !res.contains k)
        (fun e _ he => by
          simp only [Bool.not_eq_true'] at he ⊢
          cases hc : res.contains e
          · rfl
          · exfalso
            have : e ∈ (refPass reg res (res, false)).1 :=
              refPass_mono reg res (res, false) e (by simpa using hc)
            simp [this] at he)
        x
        (List.mem_dedup.mpr (lookup_isSome_mem_keys reg x hx3))
        (by simp [hx1])
        (by simpa using hx2)
      omega
    · next hflag =>
      have hflag' : (refPass reg res (res, false)).2 = false := by
        cases hv : (refPass reg res (res, false)).2
        · rfl
        · exact absurd hv hflag
      obtain ⟨heq, hall⟩ := refPass_false reg res (res, false) hflag'
      rw [heq]
      intro a ha sch hsch b hb hbsome
      exact hall a ha sch hsch b hb hbsome

theorem findAll_supset (init : List String) (reg : Registry) (x : String) (h : x ∈ init) :
    x ∈ findAllReferencedSchemas init reg := by
  unfold findAllReferencedSchemas
  exact refLoop_mono reg _ _ x (foldl_addUnique_mem_of_mem init [] x h)

theorem findAll_closed (init : List String) (reg : Registry) :
    closedUnderRefs reg (findAllReferencedSchemas init reg) := by
  unfold findAllReferencedSchemas
  refine refLoop_closed reg _ _ ?_
  have h1 : (((reg.map Prod.fst).dedup).filter
      (fun k => !(init.foldl addUnique []).contains k)).length ≤
      ((reg.map Prod.fst).dedup).length := List.length_filter_le _ _
  have h2 : ((reg.map Prod.fst).dedup).length ≤ (reg.map Prod.fst).length :=
    List.Sublist.length_le (List.dedup_sublist _)
  have h3 : (reg.map Prod.fst).length = reg.length := List.length_map _ _
  omega

/-! ### Response-code scan and naming lemmas -/

theorem responseSchemaLoop_find (resps : List (String × ResponseInfo)) :
    ∀ codes, responseSchemaLoop resps codes =
      (codes.find? (fun c => (jsonSchemaOf resps c).isSome)).bind
        (fun c => jsonSchemaOf resps c) := by
  intro codes
  induction codes with
  | nil => rfl
  | cons c cs ih =>
    cases hc : jsonSchemaOf resps c with
    | some sch =>
      have : (jsonSchemaOf resps c).isSome = true := by simp [hc]
      simp [responseSchemaLoop, List.find?, hc, this]
    | none =>
      have : (jsonSchemaOf resps c).isSome = false := by simp [hc]
      simp [responseSchemaLoop, List.find?, hc, this, ih]

theorem splitOnChar_ne_nil (c : Char) (cs : List Char) : splitOnChar c cs ≠ [] := by
  cases cs with
  | nil => simp [splitOnChar]
  | cons a rest =>
    simp only [splitOnChar]
    split
    · simp
    · split <;> simp

theorem splitOnChar_len (c : Char) :
    ∀ cs, c ∈ cs → 2 ≤ (splitOnChar c cs).length := by
  intro cs
  induction cs with
  | nil => intro h; simp at h
  | cons a rest ih =>
    intro h
    simp only [splitOnChar]
    cases hsp : splitOnChar c rest with
    | nil => exact absurd hsp (splitOnChar_ne_nil c rest)
    | cons g gs =>
      by_cases hac : a = c
      · simp [hac]
      · have hcr : c ∈ rest := by
          rcases List.mem_cons.mp h with rfl | h'
          · exact absurd rfl hac
          · exact h'
        have := ih hcr
        rw [hsp] at this
        simp only [List.length_cons] at this
        simp [hac]
        omega

theorem substrOccurs_underscore_mem (s : String) (h : substrOccurs "_" s = true) :
    '_' ∈ s.data := by
  unfold substrOccurs firstIndexOfSub at h
  obtain ⟨i, _, hi⟩ := List.find?_isSome.mp h
  have hpre : ("_".data) <+: (s.data.drop i) := List.isPrefixOf_iff_prefix.mp hi
  have : '_' ∈ s.data.drop i := hpre.sublist.mem (by simp [String.data])
  exact List.mem_of_mem_drop this

theorem jsSplit_underscore_len (s : String) (h : substrOccurs "_" s = true) :
    2 ≤ (jsSplit s '_').length := by
  unfold jsSplit
  rw [List.length_map]
  exact splitOnChar_len '_' s.data (substrOccurs_underscore_mem s h)

theorem bindingBase_underscore (operationId : String)
    (h : substrOccurs "_" operationId = true) :
    bindingBase operationId = toPascalCase ((jsSplit operationId '_').getLastD "") := by
  unfold bindingBase
  rw [if_pos h, if_pos (jsSplit_underscore_len operationId h)]

theorem bindingBase_plain (operationId : String)
    (h : substrOccurs "_" operationId = false) :
    bindingBase operationId = toPascalCase operationId := by
  unfold bindingBase
  rw [if_neg (by simp [h])]

theorem hookName_eq (path method : String) (e : EndpointInfo) (schemas : Registry) :
    (reactQueryHookData path method e schemas).hookName =
      "use" ++ bindingBase (operationIdOf path method e) := by
  rfl

theorem generateParamInterface_header (path method : String) (e : EndpointInfo)
    (schemas : Registry) (h : generateParamInterface path method e schemas ≠ "") :
    ∃ body, generateParamInterface path method e schemas =
      "export interface " ++ bindingBase (operationIdOf path method e) ++ "Params" ++
        " \x7b\n" ++ body := by
  unfold generateParamInterface at h ⊢
  cases hp : e.parameters with
  | none => simp [hp] at h
  | some params =>
    simp only [hp] at h ⊢
    by_cases he : params.isEmpty = true
    · rw [if_pos he] at h
      exact absurd rfl h
    · rw [if_neg he] at h ⊢
      by_cases hc : ((params.filter (fun p => p.inLoc == "path")).isEmpty &&
          (params.filter (fun p => p.inLoc == "query")).isEmpty) = true
      · rw [if_pos hc] at h
        exact absurd rfl h
      · rw [if_neg hc] at h ⊢
        refine ⟨String.join ((params.filter (fun p => p.inLoc == "path")).map
            (fun p => "  " ++ toCamelCase p.name ++ (if p.required == some true then "" else "?") ++
              ": " ++ convertTypeToTs ((p.schema).getD emptySchema) schemas ++ ";\n")) ++
          String.join ((params.filter (fun p => p.inLoc == "query")).map
            (fun p => "  " ++ toCamelCase p.name ++ (if p.required == some true then "" else "?") ++
              ": " ++ convertTypeToTs ((p.schema).getD emptySchema) schemas ++ ";\n")) ++
          "\x7d\n", ?_⟩
        simp [String.append_assoc]

/-! ### Claims -/

/-- Claim C2: `findAllReferencedSchemas` contains every root name and is
transitively closed — if a name of the closure has a registry entry, then
every registered schema name referenced anywhere inside that entry
(properties, array items, `oneOf`/`anyOf`/`allOf` members, per
`findSchemaReferences`) is also in the closure. -/
theorem claim_C2 (initialSchemas : List String) (allSchemas : Registry) :
    (∀ x ∈ initialSchemas, x ∈ findAllReferencedSchemas initialSchemas allSchemas) ∧
    closedUnderRefs allSchemas (findAllReferencedSchemas initialSchemas allSchemas) :=
  ⟨fun x hx => findAll_supset initialSchemas allSchemas x hx,
   findAll_closed initialSchemas allSchemas⟩

/-- Claim C2 witness: in the registry where `A` references `B` (via a
property) and `B` references `C` (via array items), the closure of the
root set `{A}` contains `A`, `B` and `C`. -/
theorem claim_C2_witness :
    "A" ∈ findAllReferencedSchemas ["A"] regABC ∧
    "B" ∈ findAllReferencedSchemas ["A"] regABC ∧
    "C" ∈ findAllReferencedSchemas ["A"] regABC := by
  obtain ⟨hsup, hclosed⟩ := claim_C2 ["A"] regABC
  have hA : "A" ∈ findAllReferencedSchemas ["A"] regABC := hsup "A" (by decide)
  have hB : "B" ∈ findAllReferencedSchemas ["A"] regABC := by
    refine hclosed "A" hA (regABC.get ⟨0, by decide⟩).2 rfl "B" (by decide) (by decide)
  have hC : "C" ∈ findAllReferencedSchemas ["A"] regABC := by
    refine hclosed "B" hB (regABC.get ⟨1, by decide⟩).2 rfl "C" (by decide) (by decide)
  exact ⟨hA, hB, hC⟩

/-- Claim C3 counterexample: for a `$ref` naming a schema absent from the
registry, `convertTypeToTs` returns the referenced name itself
(`"Missing"`), not the unknown-type placeholder `"any"`, and no
diagnostic exists (the resolver's only output is this string). -/
theorem claim_C3_counterexample :
    lookupSchema [] "Missing" = none ∧
    convertTypeToTs (refSchema "#/components/schemas/Missing") [] = "Missing" ∧
    convertTypeToTs (refSchema "#/components/schemas/Missing") [] ≠ "any" := by
  refine ⟨rfl, by decide, by decide⟩

/-- Claim C3 (amended): for every node with a truthy `$ref`, the resolver
returns the reference's last path segment itself (falling back to `any`
only when that segment is empty), without consulting the registry at all
(the result is the same under the empty registry), and records no
diagnostic; generation continues because the resolver is total. -/
theorem claim_C3 (t : Schema) (reg : Registry) (h : truthyRef t = true) :
    convertTypeToTs t reg =
      (if lastSegment ((t.ref).getD "") = "" then "any"
       else lastSegment ((t.ref).getD "")) ∧
    convertTypeToTs t reg = convertTypeToTs t [] :=
  ⟨ct_ref_eq t reg h, convertTypeToTs_regIrrel t reg []⟩

/-- Claim C3 witness: the amended claim at the unresolvable reference
`#/components/schemas/Missing` under the empty registry. -/
theorem claim_C3_witness :
    convertTypeToTs (refSchema "#/components/schemas/Missing") [] =
      (if lastSegment (((refSchema "#/components/schemas/Missing").ref).getD "") = "" then "any"
       else lastSegment (((refSchema "#/components/schemas/Missing").ref).getD "")) :=
  (claim_C3 (refSchema "#/components/schemas/Missing") [] (by decide)).1

/-- Claim C4: a node whose `type` is an array containing `"null"` (and
which reaches dispatch rule 5: no truthy `$ref`, no
`allOf`/`oneOf`/`anyOf`) resolves to the union of the resolved non-null
members with ` | null` appended exactly once. -/
theorem claim_C4 (t : Schema) (reg : Registry) (ts : List String)
    (h1 : truthyRef t = false) (h2 : t.allOf = none) (h3 : t.oneOf = none)
    (h4 : t.anyOf = none) (h5 : t.type = some (.multi ts)) (h6 : "null" ∈ ts) :
    convertTypeToTs t reg =
      String.intercalate " | "
        ((ts.filter (· != "null")).map (fun s => convertTypeToTs (setTypeSingle t s) reg)) ++
      " | null" :=
  ct_multi_null_eq t reg ts h1 h2 h3 h4 h5 h6

/-- Claim C4 witness: `{type: ["string", "null"]}` resolves to the
two-member union `string | null` with no duplicate `null`. -/
theorem claim_C4_witness : convertTypeToTs nullableStrSchema [] = "string | null" := by
  rw [claim_C4 nullableStrSchema [] ["string", "null"] (by decide) rfl rfl rfl rfl (by decide)]
  decide

/-- Claim C5 counterexample: the `oneOf` union is not deduplicated —
`{oneOf: [{type: "string"}, {type: "string"}]}` resolves to
`string | string`, not `string`. -/
theorem claim_C5_counterexample :
    convertTypeToTs dupOneOfSchema [] = "string | string" ∧
    convertTypeToTs dupOneOfSchema [] ≠ "string" := by
  refine ⟨by decide, by decide⟩

/-- Claim C5 (amended): a `oneOf` (or `anyOf`) node resolves to the union
of the member resolutions in member order with empty-string results
dropped (`filter(Boolean)`), with no deduplication; an empty member list
falls back to `any` (via `joinUnion`). -/
theorem claim_C5 (t : Schema) (reg : Registry) (l : List Schema) :
    (truthyRef t = false → t.allOf = none → t.oneOf = some l →
      convertTypeToTs t reg = joinUnion (l.map (memberResolve reg))) ∧
    (truthyRef t = false → t.allOf = none → t.oneOf = none → t.anyOf = some l →
      convertTypeToTs t reg = joinUnion (l.map (memberResolve reg))) :=
  ⟨fun h1 h2 h3 => ct_oneOf_eq t reg l h1 h2 h3,
   fun h1 h2 h3 h4 => ct_anyOf_eq t reg l h1 h2 h3 h4⟩

/-- Claim C5 witness: the amended claim at the duplicated-member `oneOf`
node (duplicates preserved) and at the empty `oneOf` node (falls back to
`any`). -/
theorem claim_C5_witness :
    convertTypeToTs dupOneOfSchema [] = joinUnion ([strSchema, strSchema].map (memberResolve [])) ∧
    convertTypeToTs emptyOneOfSchema [] = "any" := by
  constructor
  · exact (claim_C5 dupOneOfSchema [] [strSchema, strSchema]).1 (by decide) rfl rfl
  · rw [(claim_C5 emptyOneOfSchema [] []).1 (by decide) rfl rfl]
    decide

/-- Claim C6 counterexample: in `convertTypeToTs` the enum check lives
inside the `case 'string'` scalar branch, so an enum node whose declared
`type` is `integer` resolves through the scalar mapping to `number` and
its enum values are ignored — not the literal union `"a" | "b"`. -/
theorem claim_C6_counterexample :
    convertTypeToTs intEnumSchema [] = "number" ∧
    convertTypeToTs intEnumSchema [] ≠ quoteEnumDouble ["a", "b"] := by
  refine ⟨by decide, by decide⟩

/-- Claim C6 (amended): the resolver `convertTypeToTs` returns the
double-quoted literal union of the enum values only for nodes whose
declared `type` is `string` (the enum check is inside the string scalar
case, after the `$ref`/`allOf`/`oneOf`/`anyOf` dispatch); the top-level
emitter `generateSingleTypeDefinition` does check `enum` first and emits
the single-quoted literal union regardless of the node's declared
`type`. -/
theorem claim_C6 :
    (∀ t reg es, truthyRef t = false → t.allOf = none → t.oneOf = none → t.anyOf = none →
      t.type = some (.single "string") → t.enum = some es →
      convertTypeToTs t reg = quoteEnumDouble es) ∧
    (∀ typeName schema allSchemas es, Schema.enum schema = some es →
      generateSingleTypeDefinition typeName schema allSchemas =
        "export type " ++ typeName ++ " = " ++
          String.intercalate " | " (es.map (fun v => "\x27" ++ v ++ "\x27")) ++ ";\n") := by
  constructor
  · intro t reg es h1 h2 h3 h4 h5 h6
    exact ct_enum_string_eq t reg es h1 h2 h3 h4 h5 h6
  · intro typeName schema allSchemas es h
    unfold generateSingleTypeDefinition
    rw [if_pos (by simp [h]), h]
    rfl

/-- Claim C6 witness: the amended claim at `{type: "string",
enum: ["a","b"]}` (resolver) and at `{type: "integer", enum: ["a","b"]}`
(top-level emitter, which honours the enum despite the integer type). -/
theorem claim_C6_witness :
    convertTypeToTs strEnumSchema [] = quoteEnumDouble ["a", "b"] ∧
    generateSingleTypeDefinition "E" intEnumSchema [] =
      "export type E = " ++
        String.intercalate " | " (["a", "b"].map (fun v => "\x27" ++ v ++ "\x27")) ++ ";\n" := by
  constructor
  · exact claim_C6.1 strEnumSchema [] ["a", "b"] (by decide) rfl rfl rfl rfl rfl
  · exact claim_C6.2 "E" intEnumSchema [] ["a", "b"] rfl

/-- Claim C7: the resolver terminates on every finite schema node and
registry — `msize t` fuel always suffices and every sufficient fuel
computes the same defined result — it never follows a reference into the
registry (the result is registry-independent, so `$ref` cycles such as
`A ↔ B` are harmless), and a reference node resolves to the referenced
name itself rather than an inlined expansion. -/
theorem claim_C7 (t : Schema) (reg : Registry) :
    (∀ fuel, msize t ≤ fuel → convertF fuel t reg = some (convertTypeToTs t reg)) ∧
    (∀ reg', convertTypeToTs t reg = convertTypeToTs t reg') ∧
    (truthyRef t = true → convertTypeToTs t reg =
      (if lastSegment ((t.ref).getD "") = "" then "any"
       else lastSegment ((t.ref).getD ""))) :=
  ⟨fun _ h => convertF_eq_total t reg h,
   fun reg' => convertTypeToTs_regIrrel t reg reg',
   fun h => ct_ref_eq t reg h⟩

/-- Claim C7 witness: under the cyclic registry `A ↦ $ref B`,
`B ↦ $ref A`, resolving `A`'s node terminates (with `msize` fuel) and
yields `B` by name. -/
theorem claim_C7_witness :
    convertF (msize cycA) cycA cycReg = some (convertTypeToTs cycA cycReg) ∧
    convertTypeToTs cycA cycReg = "B" := by
  refine ⟨(claim_C7 cycA cycReg).1 (msize cycA) le_rfl, ?_⟩
  rw [(claim_C7 cycA cycReg).2.2 (by decide)]
  decide

/-- Claim C10: the `allOf` resolution of `convertTypeToTs` ignores the
member nodes' own `required` lists entirely (erasing them changes
nothing), and for inline-object members it merges the property maps
(later members overwriting earlier same-named properties, via
`allOfCombined`) and marks a merged property as required — no `?`
marker — exactly when the property name appears in the `allOf` node's
own top-level `required` list. -/
theorem claim_C10 (t : Schema) (reg : Registry) (ms : List Schema) :
    (t.allOf = some ms →
      convertTypeToTs t reg = convertTypeToTs (setAllOf t (ms.map clearRequired)) reg) ∧
    (truthyRef t = false → t.allOf = some ms → allOfRefTypes ms = [] →
      allOfCombined ms ≠ [] →
      convertTypeToTs t reg =
        "\x7b\n" ++ String.intercalate "\n"
          ((allOfCombined ms).map (propLine reg ((t.required).getD []))) ++ "\n  \x7d") := by
  constructor
  · intro h2
    exact ct_allOf_required_irrel t reg ms h2
  · intro h1 h2 h3 h4
    rw [ct_allOf_inline_eq t reg ms h1 h2 h3 h4]
    rw [ct_object_eq (objectSchema (allOfCombined ms) t.required) reg (allOfCombined ms)
      (by rfl) rfl rfl rfl rfl rfl]
    rfl

/-- Claim C10 witness: an `allOf` with one inline member that marks `a`
required, under a node with no top-level `required`: the merged property
`a` is emitted optional (`a?`), showing the member's `required` list is
ignored. -/
theorem claim_C10_witness :
    convertTypeToTs allOfSampleSchema [] = "\x7b\n    a?: string;\n  \x7d" := by
  rw [(claim_C10 allOfSampleSchema [] [allOfMemberSchema]).2 (by decide) rfl (by decide)
    (by intro hc; exact absurd (congrArg List.length hc) (by decide))]
  decide

/-- Claim C8: the emitted response type scans the status codes in the
fixed preference order `200, 201, 204, 202, 203, 205` and resolves the
schema of the first listed code that carries an `application/json`
content schema; when no listed code carries one (or the endpoint has no
`responses`), the response type is the unknown type `any`. -/
theorem claim_C8 (path method : String) (e : EndpointInfo) (schemas : Registry) :
    successCodes = ["200", "201", "204", "202", "203", "205"] ∧
    (∀ resps, e.responses = some resps →
      (∀ c sch, successCodes.find? (fun c => (jsonSchemaOf resps c).isSome) = some c →
        jsonSchemaOf resps c = some sch →
        (reactQueryHookData path method e schemas).responseType = convertTypeToTs sch schemas) ∧
      (successCodes.find? (fun c => (jsonSchemaOf resps c).isSome) = none →
        (reactQueryHookData path method e schemas).responseType = "any")) ∧
    (e.responses = none → (reactQueryHookData path method e schemas).responseType = "any") := by
  have hproj : (reactQueryHookData path method e schemas).responseType =
      (match e.responses with
       | some resps =>
         match responseSchemaLoop resps successCodes with
         | some sch => convertTypeToTs sch schemas
         | none => "any"
       | none => "any") := rfl
  refine ⟨rfl, ?_, ?_⟩
  · intro resps hresps
    constructor
    · intro c sch hfind hjson
      rw [hproj, hresps]
      simp [responseSchemaLoop_find, hfind, hjson]
    · intro hfind
      rw [hproj, hresps]
      simp [responseSchemaLoop_find, hfind]
  · intro hresps
    rw [hproj, hresps]

/-- Claim C8 witness: for the sample endpoint whose `200` response
carries no JSON content but whose `201` does, the response type is the
resolution of the `201` schema (`string`). -/
theorem claim_C8_witness :
    (reactQueryHookData "/users/\x7bid\x7d" "get" epSample []).responseType =
      convertTypeToTs strSchema [] := by
  refine ((claim_C8 "/users/\x7bid\x7d" "get" epSample []).2.1 _ rfl).1 "201" strSchema
    (by decide) rfl

/-- Claim C9: when the operation identifier (its `operationId`, or the
synthesized one) contains an underscore, the emitted hook name and the
parameter-interface name are derived from only the segment after the
last underscore; without an underscore the full identifier is used. -/
theorem claim_C9 (path method : String) (e : EndpointInfo) (schemas : Registry) :
    (substrOccurs "_" (operationIdOf path method e) = true →
      (reactQueryHookData path method e schemas).hookName =
        "use" ++ toPascalCase ((jsSplit (operationIdOf path method e) '_').getLastD "") ∧
      (generateParamInterface path method e schemas ≠ "" →
        ∃ body, generateParamInterface path method e schemas =
          "export interface " ++
            toPascalCase ((jsSplit (operationIdOf path method e) '_').getLastD "") ++
            "Params" ++ " \x7b\n" ++ body)) ∧
    (substrOccurs "_" (operationIdOf path method e) = false →
      (reactQueryHookData path method e schemas).hookName =
        "use" ++ toPascalCase (operationIdOf path method e)) := by
  constructor
  · intro h
    constructor
    · rw [hookName_eq, bindingBase_underscore _ h]
    · intro hne
      obtain ⟨body, hbody⟩ := generateParamInterface_header path method e schemas hne
      exact ⟨body, by rw [hbody, bindingBase_underscore _ h]⟩
  · intro h
    rw [hookName_eq, bindingBase_plain _ h]

/-- Claim C9 witness: operation identifier `userController_getUser` with
method GET yields the hook name `useGetUser` and a parameter interface
named `GetUserParams`. -/
theorem claim_C9_witness :
    (reactQueryHookData "/users/\x7bid\x7d" "get" epSample []).hookName = "useGetUser" ∧
    (∃ body, generateParamInterface "/users/\x7bid\x7d" "get" epSample [] =
      "export interface GetUserParams" ++ " \x7b\n" ++ body) := by
  obtain ⟨hname, hiface⟩ := (claim_C9 "/users/\x7bid\x7d" "get" epSample []).1 (by decide)
  constructor
  · rw [hname]
    decide
  · obtain ⟨body, hbody⟩ := hiface (by decide)
    refine ⟨body, ?_⟩
    rw [hbody]
    have hx : toPascalCase
        ((jsSplit (operationIdOf "/users/\x7bid\x7d" "get" epSample) '_').getLastD "") =
        "GetUser" := by decide
    rw [hx]
    rfl

/-- Claim C1 counterexample: for the input document in which both `paths`
and `components.schemas` are absent, the claim predicts an empty
artifact map, but both generators throw a `TypeError`
(`Object.entries(swaggerDoc.paths)` with `paths` undefined) instead of
returning a map. -/
theorem claim_C1_counterexample :
    generateReactHooks (fun _ => "") ⟨none, none⟩ = .error typeErrorMsg ∧
    generateHandlebarsResources (fun _ => "") ⟨none, none⟩ = .error typeErrorMsg :=
  ⟨rfl, rfl⟩

/-- Claim C1 (amended): a missing `components.schemas` is indeed treated
as the empty registry and both generators return an artifact map
normally for any present `paths` (empty map for empty `paths`); but a
missing `paths` field is not treated as an empty collection — both
generators throw a `TypeError` from `Object.entries(swaggerDoc.paths)`. -/
theorem claim_C1 (render : HookData → String) (doc : SwaggerDoc) :
    (doc.paths = none →
      generateReactHooks render doc = .error typeErrorMsg ∧
      generateHandlebarsResources render doc = .error typeErrorMsg) ∧
    (∀ ps, doc.paths = some ps →
      (∃ m, generateReactHooks render doc = .ok m) ∧
      (∃ m, generateHandlebarsResources render doc = .ok m)) ∧
    (doc.paths = some [] →
      generateReactHooks render doc = .ok [] ∧
      generateHandlebarsResources render doc = .ok []) := by
  obtain ⟨paths, comps⟩ := doc
  refine ⟨?_, ?_, ?_⟩
  · intro h
    simp only [SwaggerDoc.paths] at h
    subst h
    exact ⟨rfl, rfl⟩
  · intro ps h
    simp only [SwaggerDoc.paths] at h
    subst h
    exact ⟨⟨_, rfl⟩, ⟨_, rfl⟩⟩
  · intro h
    simp only [SwaggerDoc.paths] at h
    subst h
    exact ⟨rfl, rfl⟩

/-- Claim C1 witness: a document with empty `paths` and a present
`components` whose `schemas` field is absent yields the empty artifact
map from both generators. -/
theorem claim_C1_witness :
    generateReactHooks (fun _ => "") ⟨some [], some ⟨none⟩⟩ = .ok [] ∧
    generateHandlebarsResources (fun _ => "") ⟨some [], some ⟨none⟩⟩ = .ok [] :=
  (claim_C1 (fun _ => "") ⟨some [], some ⟨none⟩⟩).2.2 rfl
